import Mathlib

/-!
Shallow embedding of the Stock Movement & Reconciliation Engine
(backend/app/services/movement_service.py, backend/app/services/audit_service.py,
backend/app/repositories/audit_repo.py, backend/app/models/warehouse.py).

The SQLite tables become lists of records inside a `DB` state; every SQL
statement of the services is rendered as the corresponding pure list
transformation.  `datetime('now')` becomes the logical clock `DB.now`;
quantities are unbounded integers (Python ints); SQL NULL becomes `Option`.
Python float arithmetic in the forecast is rendered over `ℚ`; `int(x)` is
truncation toward zero (`ratTrunc`).
-/

namespace StockEngine

/-- Row of the `parts` table (the columns the engine reads and writes). -/
structure Part where
  id : Nat
  name : String
  code : Option String := none
  company_cost_price : Option ℚ := none
  company_sell_price : Option ℚ := none
  min_stock_level : Option ℤ := none
  max_stock_level : Option ℤ := none
  target_stock_level : Option ℤ := none
  type_id : Option Nat := none
  style_id : Option Nat := none
  category_id : Option Nat := none
  shelf_location : Option String := none
  bin_location : Option String := none
  forecast_adu_30 : Option ℚ := none
  forecast_adu_90 : Option ℚ := none
  forecast_days_until_low : Option ℤ := none
  forecast_suggested_order : Option ℤ := none
  forecast_reorder_point : Option ℤ := none
  forecast_target_qty : Option ℤ := none
  forecast_last_run : Option Nat := none
  deriving Repr, DecidableEq

/-- Row of the `stock` table. -/
structure StockRow where
  id : Nat
  part_id : Nat
  location_type : String
  location_id : Nat
  supplier_id : Option Nat := none
  qty : ℤ
  updated_at : Nat := 0
  last_counted : Option Nat := none
  deriving Repr, DecidableEq

/-- Row of the `stock_movements` table; `_log_movement` drops `None` kwargs,
so nullable columns are `Option`. -/
structure MovementLogEntry where
  id : Nat := 0
  part_id : Nat
  qty : ℤ
  from_location_type : Option String := none
  from_location_id : Option Nat := none
  to_location_type : Option String := none
  to_location_id : Option Nat := none
  supplier_id : Option Nat := none
  movement_type : String
  reason : Option String := none
  notes : Option String := none
  reference_number : Option String := none
  job_id : Option Nat := none
  performed_by : Nat := 0
  photo_path : Option String := none
  scan_confirmed : Bool := false
  unit_cost_at_move : Option ℚ := none
  unit_sell_at_move : Option ℚ := none
  created_at : Nat := 0
  deriving Repr, DecidableEq

/-- Row of the `suppliers` table. -/
structure Supplier where
  id : Nat
  name : String
  deriving Repr, DecidableEq

/-- Row of the `supplier_preferences` table. -/
structure SupplierPref where
  scope_type : String
  scope_id : Nat
  supplier_id : Nat
  deriving Repr, DecidableEq

/-- Row of the `staging_tags` table. -/
structure StagingTag where
  stock_id : Nat
  destination_type : String
  destination_id : Nat
  destination_label : Option String := none
  tagged_by : Nat
  created_at : Nat := 0
  deriving Repr, DecidableEq

/-- Row of the `audits` table. -/
structure Audit where
  id : Nat
  audit_type : String
  location_type : String
  location_id : Nat
  category_id : Option Nat := none
  status : String := "in_progress"
  started_by : Nat
  total_items : Nat := 0
  matched_items : Option Nat := none
  discrepancy_count : Option Nat := none
  skipped_count : Option Nat := none
  notes : Option String := none
  completed_at : Option Nat := none
  deriving Repr, DecidableEq

/-- Row of the `audit_items` table. -/
structure AuditItem where
  id : Nat
  audit_id : Nat
  part_id : Nat
  expected_qty : ℤ
  actual_qty : Option ℤ := none
  result : String := "pending"
  discrepancy_note : Option String := none
  photo_path : Option String := none
  counted_at : Option Nat := none
  deriving Repr, DecidableEq

/-- The whole SQLite database reached through `self.db`, plus the rowid
allocators and the logical clock. -/
structure DB where
  parts : List Part := []
  suppliers : List Supplier := []
  supplier_prefs : List SupplierPref := []
  stock : List StockRow := []
  staging_tags : List StagingTag := []
  movements : List MovementLogEntry := []
  audits : List Audit := []
  audit_items : List AuditItem := []
  next_stock_id : Nat := 1
  next_movement_id : Nat := 1
  next_audit_id : Nat := 1
  next_audit_item_id : Nat := 1
  now : Nat := 0
  deriving Repr, DecidableEq

/-- Pydantic `MovementLineItem` (`qty: int = Field(ge=1)`). -/
structure MovementLineItem where
  part_id : Nat
  qty : ℤ
  supplier_id : Option Nat := none
  deriving Repr, DecidableEq

/-- Pydantic `MovementRequest` (GPS floats omitted: unused by the engine's logic). -/
structure MovementRequest where
  from_location_type : String
  from_location_id : Nat := 1
  to_location_type : String
  to_location_id : Nat := 1
  items : List MovementLineItem
  reason : Option String := none
  notes : Option String := none
  reference_number : Option String := none
  job_id : Option Nat := none
  photo_path : Option String := none
  scan_confirmed : Bool := false
  destination_type : Option String := none
  destination_id : Option Nat := none
  destination_label : Option String := none
  deriving Repr, DecidableEq

/-- Pydantic `ReceiveStockItem` (`qty: int = Field(ge=1)`). -/
structure ReceiveStockItem where
  part_id : Nat
  qty : ℤ
  shelf_location : Option String := none
  bin_location : Option String := none
  supplier_id : Option Nat := none
  notes : Option String := none
  deriving Repr, DecidableEq

/-- Pydantic `ReceiveStockRequest`. -/
structure ReceiveStockRequest where
  items : List ReceiveStockItem
  reason : Option String := some "Stock Received"
  notes : Option String := none
  reference_number : Option String := none
  deriving Repr, DecidableEq

/-- One entry of `ValidationResult.errors`. -/
structure ValidationErr where
  field : Option String := none
  message : String
  part_id : Option Nat := none
  deriving Repr, DecidableEq

/-- Pydantic `ValidationResult`. -/
structure ValidationResult where
  valid : Bool
  errors : List ValidationErr := []
  warnings : List String := []
  deriving Repr, DecidableEq

/-- Value of one `MOVEMENT_RULES` entry. -/
structure MovementRule where
  type : String
  photo_required : Bool
  deriving Repr, DecidableEq

/-- The `MOVEMENT_RULES` table from models/warehouse.py. -/
def movementRules : List ((String × String) × MovementRule) :=
  [ (("warehouse", "pulled"),  ⟨"transfer", false⟩),
    (("pulled", "truck"),      ⟨"transfer", false⟩),
    (("warehouse", "truck"),   ⟨"transfer", false⟩),
    (("truck", "job"),         ⟨"consume",  true⟩),
    (("job", "truck"),         ⟨"return",   true⟩),
    (("truck", "warehouse"),   ⟨"return",   false⟩),
    (("pulled", "warehouse"),  ⟨"return",   false⟩) ]

/-- `MOVEMENT_RULES.get(path)`. -/
def lookupRule (path : String × String) : Option MovementRule :=
  (movementRules.find? fun e => e.1 == path).map (·.2)

/-- Pydantic `MovementPreviewLine` (floats rendered over `ℚ`). -/
structure MovementPreviewLine where
  part_id : Nat
  part_name : String
  part_code : Option String := none
  qty : ℤ
  supplier_id : Option Nat := none
  supplier_name : Option String := none
  supplier_source : Option String := none
  source_before : ℤ
  source_after : ℤ
  dest_before : ℤ
  dest_after : ℤ
  unit_cost : ℚ
  line_value : ℚ
  deriving Repr, DecidableEq

/-- Pydantic `MovementPreview`. -/
structure MovementPreview where
  lines : List MovementPreviewLine
  total_qty : ℤ
  total_value : Option ℚ := none
  movement_type : String
  photo_required : Bool := false
  warnings : List String := []
  deriving Repr, DecidableEq

/-- Pydantic `MovementResult`. -/
structure MovementResult where
  movement_id : Nat
  part_id : Nat
  part_name : String
  qty : ℤ
  movement_type : String
  from_location_type : Option String := none
  to_location_type : Option String := none
  deriving Repr, DecidableEq

/-- Pydantic `MovementExecuteResponse`. -/
structure MovementExecuteResponse where
  success : Bool := true
  movements : List MovementResult := []
  total_items : Nat := 0
  total_qty : ℤ := 0
  deriving Repr, DecidableEq

/-- Pydantic `ReceiveStockResult`. -/
structure ReceiveStockResult where
  success : Bool := true
  items_received : Nat := 0
  total_qty : ℤ := 0
  movement_ids : List Nat := []
  deriving Repr, DecidableEq

/-! ### Query helpers (movement_service.py, «Private: Helpers») -/

/-- `SELECT * FROM parts WHERE id = ?` + `fetchone`. -/
def getPart (db : DB) (part_id : Nat) : Option Part :=
  db.parts.find? fun p => p.id == part_id

/-- `SELECT name FROM suppliers WHERE id = ?` + `fetchone`. -/
def getSupplierName (db : DB) (supplier_id : Nat) : Option String :=
  (db.suppliers.find? fun s => s.id == supplier_id).map (·.name)

/-- `_get_available_qty`: `COALESCE(SUM(qty),0)` over all suppliers at one location. -/
def availableQty (db : DB) (part_id : Nat) (lt : String) (lid : Nat) : ℤ :=
  ((db.stock.filter fun r =>
      r.part_id == part_id && r.location_type == lt && r.location_id == lid).map (·.qty)).sum

/-- Python truthiness of an optional integer (`if item.supplier_id:`): `None` and `0` are falsy. -/
def natTruthy : Option Nat → Bool
  | none => false
  | some n => n != 0

/-- Python truthiness of an optional string: `None` and `""` are falsy. -/
def strTruthy : Option String → Bool
  | none => false
  | some s => s != ""

/-! ### Supplier resolution (`_resolve_supplier`, `_get_preferred_supplier`) -/

/-- Cascade lookup `part → type → style → category → None`; each step is the
`supplier_preferences ⋈ suppliers` join (a preference whose supplier row is
missing yields no join row and the cascade continues).  Scope levels guarded by
Python truthiness of `type_id`/`style_id`/`category_id`. -/
def getPreferredSupplier (db : DB) (part_id : Nat) : Option (Nat × String) :=
  match getPart db part_id with
  | none => none
  | some part =>
    let scopes : List (String × Nat) :=
      [("part", part_id)]
        ++ (match part.type_id with
            | some t => if t != 0 then [("type", t)] else []
            | none => [])
        ++ (match part.style_id with
            | some st => if st != 0 then [("style", st)] else []
            | none => [])
        ++ (match part.category_id with
            | some c => if c != 0 then [("category", c)] else []
            | none => [])
    scopes.findSome? fun sc =>
      (db.supplier_prefs.find? fun sp =>
          sp.scope_type == sc.1 && sp.scope_id == sc.2).bind fun sp =>
        (getSupplierName db sp.supplier_id).map fun nm => (sp.supplier_id, nm)

/-- Ordering used by every `ORDER BY updated_at ASC`. -/
def byUpdatedAt (a b : StockRow) : Prop := a.updated_at ≤ b.updated_at

instance : DecidableRel byUpdatedAt := fun a b => Nat.decLe a.updated_at b.updated_at

instance : IsTotal StockRow byUpdatedAt := ⟨fun a b => Nat.le_total a.updated_at b.updated_at⟩

instance : IsTrans StockRow byUpdatedAt := ⟨fun _ _ _ => Nat.le_trans⟩

/-- The rows `SELECT ... WHERE part/location ... AND qty > 0 ORDER BY updated_at ASC`
returns (ties left in table order, as SQLite leaves them unspecified). -/
def positiveRowsByAge (db : DB) (part_id : Nat) (lt : String) (lid : Nat) : List StockRow :=
  List.insertionSort byUpdatedAt
    (db.stock.filter fun r =>
      r.part_id == part_id && r.location_type == lt && r.location_id == lid &&
        decide (0 < r.qty))

/-- Steps 2–4 of `_resolve_supplier` (everything after the explicit check). -/
def resolveSupplierAuto (db : DB) (item : MovementLineItem) (ft : String) (fid : Nat) :
    Option Nat × Option String × Option String :=
  let fifo : Option Nat × Option String × Option String :=
    match (positiveRowsByAge db item.part_id ft fid).head? with
    | some row => (row.supplier_id, row.supplier_id.bind (getSupplierName db), some "fifo")
    | none => (none, none, none)
  match getPreferredSupplier db item.part_id with
  | some pref =>
    match db.stock.find? (fun r =>
        r.part_id == item.part_id && r.location_type == ft && r.location_id == fid &&
          r.supplier_id == some pref.1 && decide (0 < r.qty)) with
    | some row =>
      if row.qty ≥ item.qty then (some pref.1, some pref.2, some "preferred") else fifo
    | none => fifo
  | none => fifo

/-- `_resolve_supplier`: explicit (`if item.supplier_id:` — truthiness) then
preferred then FIFO. -/
def resolveSupplier (db : DB) (item : MovementLineItem) (ft : String) (fid : Nat) :
    Option Nat × Option String × Option String :=
  if natTruthy item.supplier_id then
    match item.supplier_id with
    | some sid => (some sid, getSupplierName db sid, some "explicit")
    | none => resolveSupplierAuto db item ft fid
  else
    resolveSupplierAuto db item ft fid

/-! ### Validation (`validate_movement`) -/

/-- One iteration of the `for item in req.items` loop of `validate_movement`:
the errors and the warnings it appends. -/
def validateLine (db : DB) (req : MovementRequest) (item : MovementLineItem) :
    List ValidationErr × List String :=
  match getPart db item.part_id with
  | none =>
    ([{ part_id := some item.part_id,
        message := "Part ID " ++ toString item.part_id ++ " not found" }], [])
  | some part =>
    let available := availableQty db item.part_id req.from_location_type req.from_location_id
    let errs : List ValidationErr :=
      if item.qty > available then
        [{ part_id := some item.part_id, field := some "qty",
           message := part.name ++ ": requested " ++ toString item.qty ++ ", only "
             ++ toString available ++ " available" }]
      else []
    let zeroWarn : List String :=
      if available - item.qty = 0 then
        [part.name ++ ": source will be at 0 units after move"]
      else []
    let destQty := availableQty db item.part_id req.to_location_type req.to_location_id
    let maxStock := part.max_stock_level.getD 0
    let maxWarn : List String :=
      if maxStock > 0 ∧ destQty + item.qty > maxStock then
        [part.name ++ ": destination will be " ++ toString (destQty + item.qty)
          ++ ", exceeding max of " ++ toString maxStock]
      else []
    (errs, zeroWarn ++ maxWarn)

/-- `validate_movement`: path check first (fatal, no further checks), then the
per-line loop. -/
def validateMovement (db : DB) (req : MovementRequest) : ValidationResult :=
  if lookupRule (req.from_location_type, req.to_location_type) = none then
    { valid := false,
      errors := [{ message := "Invalid movement path: " ++ req.from_location_type
        ++ " → " ++ req.to_location_type }] }
  else
    let results := req.items.map (validateLine db req)
    let errors := (results.map (·.1)).flatten
    { valid := errors.isEmpty, errors := errors,
      warnings := (results.map (·.2)).flatten }

/-! ### Preview (`calculate_preview`) -/

/-- One iteration of the preview loop: `None` when the part lookup fails
(`continue`), else the preview line and the optional source-at-zero warning. -/
def previewEntry (db : DB) (req : MovementRequest) (item : MovementLineItem) :
    Option (MovementPreviewLine × Option String) :=
  match getPart db item.part_id with
  | none => none
  | some part =>
    let source_qty := availableQty db item.part_id req.from_location_type req.from_location_id
    let dest_qty := availableQty db item.part_id req.to_location_type req.to_location_id
    let resolved := resolveSupplier db item req.from_location_type req.from_location_id
    let unit_cost := part.company_cost_price.getD 0
    let line : MovementPreviewLine :=
      { part_id := item.part_id, part_name := part.name, part_code := part.code,
        qty := item.qty, supplier_id := resolved.1, supplier_name := resolved.2.1,
        supplier_source := resolved.2.2,
        source_before := source_qty, source_after := source_qty - item.qty,
        dest_before := dest_qty, dest_after := dest_qty + item.qty,
        unit_cost := unit_cost, line_value := unit_cost * item.qty }
    let warn : Option String :=
      if source_qty - item.qty = 0 then
        some (part.name ++ ": source will be at 0 units")
      else none
    some (line, warn)

/-- `calculate_preview`. -/
def calculatePreview (db : DB) (req : MovementRequest) : MovementPreview :=
  let rules := lookupRule (req.from_location_type, req.to_location_type)
  let entries := req.items.filterMap (previewEntry db req)
  let total_value := (entries.map fun e => e.1.line_value).sum
  { lines := entries.map (·.1),
    total_qty := (entries.map fun e => e.1.qty).sum,
    total_value := if total_value > 0 then some total_value else none,
    movement_type := (rules.map (·.type)).getD "transfer",
    photo_required := (rules.map (·.photo_required)).getD false,
    warnings := entries.filterMap (·.2) }

/-! ### Stock mutation primitives (`_deduct_stock`, `_deduct_stock_pooled`, `_add_stock`) -/

/-- `UPDATE ... WHERE p`: the updated table and the `rowcount`. -/
def updateRows (stock : List StockRow) (p : StockRow → Bool) (f : StockRow → StockRow) :
    List StockRow × Nat :=
  (stock.map fun r => if p r then f r else r, (stock.filter p).length)

/-- `DELETE FROM stock WHERE part_id = ? AND location_type = ? AND location_id = ? AND qty = 0`. -/
def deleteZeroRows (stock : List StockRow) (part_id : Nat) (lt : String) (lid : Nat) :
    List StockRow :=
  stock.filter fun r =>
    !(r.part_id == part_id && r.location_type == lt && r.location_id == lid && r.qty == 0)

/-- The `(id, take)` pairs produced by the pooled-deduction loop
(`take = min(row["qty"], remaining)`, breaking once `remaining <= 0`). -/
def pooledTakes : ℤ → List StockRow → List (Nat × ℤ)
  | _, [] => []
  | remaining, r :: rs =>
    if remaining ≤ 0 then []
    else
      let take := min r.qty remaining
      (r.id, take) :: pooledTakes (remaining - take) rs

/-- `UPDATE stock SET qty = qty - ?, updated_at = datetime('now') WHERE id = ?`. -/
def applyTake (now : Nat) (stock : List StockRow) (t : Nat × ℤ) : List StockRow :=
  stock.map fun r =>
    if r.id == t.1 then { r with qty := r.qty - t.2, updated_at := now } else r

/-- `_deduct_stock_pooled`: FIFO split across supplier rows, only if the sum suffices. -/
def deductStockPooled (db : DB) (part_id : Nat) (lt : String) (lid : Nat) (qty_needed : ℤ) :
    DB × Bool :=
  let rows := positiveRowsByAge db part_id lt lid
  let total_available := (rows.map (·.qty)).sum
  if total_available < qty_needed then (db, false)
  else
    let stock1 := (pooledTakes qty_needed rows).foldl (applyTake db.now) db.stock
    ({ db with stock := deleteZeroRows stock1 part_id lt lid }, true)

/-- `_deduct_stock`: the guarded `UPDATE ... AND qty >= ?` (the two SQL branches
for `supplier_id = ?` / `supplier_id IS NULL` coincide as equality on `Option`);
on `rowcount = 0` with a concrete supplier, fall back to the pooled deduction. -/
def deductStock (db : DB) (part_id : Nat) (lt : String) (lid : Nat) (qty : ℤ)
    (supplier_id : Option Nat) : DB × Bool :=
  let p := fun r : StockRow =>
    r.part_id == part_id && r.location_type == lt && r.location_id == lid &&
      r.supplier_id == supplier_id && decide (qty ≤ r.qty)
  let upd := updateRows db.stock p fun r => { r with qty := r.qty - qty, updated_at := db.now }
  if upd.2 > 0 then
    ({ db with stock := deleteZeroRows upd.1 part_id lt lid }, true)
  else if supplier_id.isSome then
    deductStockPooled db part_id lt lid qty
  else (db, false)

/-- `_add_stock`: UPSERT — increment the row with this exact
(part, location, supplier) key, else insert a fresh row; returns the row id
(`0` when the post-update id lookup finds nothing, as in the source). -/
def addStock (db : DB) (part_id : Nat) (lt : String) (lid : Nat) (qty : ℤ)
    (supplier_id : Option Nat) : DB × Nat :=
  let p := fun r : StockRow =>
    r.part_id == part_id && r.location_type == lt && r.location_id == lid &&
      r.supplier_id == supplier_id
  let upd := updateRows db.stock p fun r => { r with qty := r.qty + qty, updated_at := db.now }
  if upd.2 > 0 then
    ({ db with stock := upd.1 }, ((upd.1.find? p).map (·.id)).getD 0)
  else
    let row : StockRow :=
      { id := db.next_stock_id, part_id := part_id, location_type := lt,
        location_id := lid, supplier_id := supplier_id, qty := qty,
        updated_at := db.now }
    ({ db with
        stock := db.stock ++ [row],
        next_stock_id := db.next_stock_id + 1 },
      db.next_stock_id)

/-! ### Staging tags and the movement log -/

/-- `_tag_staging`: `INSERT ... ON CONFLICT(stock_id) DO UPDATE`. -/
def tagStaging (db : DB) (stock_id : Nat) (dt : String) (did : Nat)
    (dl : Option String) (taggedBy : Nat) : DB :=
  if db.staging_tags.any fun t => t.stock_id == stock_id then
    { db with staging_tags := db.staging_tags.map fun t =>
        if t.stock_id == stock_id then
          { t with
            destination_type := dt, destination_id := did,
            destination_label := dl, tagged_by := taggedBy, created_at := db.now }
        else t }
  else
    let tag : StagingTag :=
      { stock_id := stock_id, destination_type := dt, destination_id := did,
        destination_label := dl, tagged_by := taggedBy, created_at := db.now }
    { db with staging_tags := db.staging_tags ++ [tag] }

/-- `_clear_staging_tag_for_part`: delete tags of the matching `pulled` stock rows. -/
def clearStagingTagForPart (db : DB) (part_id : Nat) (lid : Nat)
    (supplier_id : Option Nat) : DB :=
  let ids := (db.stock.filter fun r =>
    r.part_id == part_id && r.location_type == "pulled" && r.location_id == lid &&
      r.supplier_id == supplier_id).map (·.id)
  { db with staging_tags := db.staging_tags.filter fun t => !(ids.contains t.stock_id) }

/-- `_log_movement`: append-only insert; the id and timestamp come from the database. -/
def logMovement (db : DB) (e : MovementLogEntry) : DB × Nat :=
  let entry := { e with id := db.next_movement_id, created_at := db.now }
  ({ db with
      movements := db.movements ++ [entry],
      next_movement_id := db.next_movement_id + 1 },
    entry.id)

/-! ### Forecast Calculator and Low-Stock Sentinel (`_update_forecast`, `_check_low_stock`) -/

/-- Python `int(x)` on the exact rational value: truncation toward zero. -/
def ratTrunc (q : ℚ) : ℤ := q.num.tdiv q.den

/-- The consumption query of `_update_forecast`: movements of kind
consume/transfer into job/truck within the trailing `days` days. -/
def consumedSince (db : DB) (part_id : Nat) (days : Nat) : ℤ :=
  ((db.movements.filter fun m =>
      m.part_id == part_id &&
      (m.movement_type == "consume" || m.movement_type == "transfer") &&
      (m.to_location_type == some "job" || m.to_location_type == some "truck") &&
      decide (db.now ≤ m.created_at + days)).map (·.qty)).sum

/-- `SELECT COALESCE(SUM(qty),0) ... WHERE part_id = ? AND location_type = 'warehouse'`
(every warehouse location id). -/
def warehouseQty (db : DB) (part_id : Nat) : ℤ :=
  ((db.stock.filter fun r =>
      r.part_id == part_id && r.location_type == "warehouse").map (·.qty)).sum

/-- The `days_until_low` computation of `_update_forecast`:
`max(-1, int((wh_qty - min_level) / adu_30))` when `adu_30 > 0`, else `-1` or `999`. -/
def daysUntilLowCalc (adu30 : ℚ) (wh min_level : ℤ) : ℤ :=
  if 0 < adu30 then max (-1) (ratTrunc (((wh - min_level : ℤ) : ℚ) / adu30))
  else if wh ≤ min_level then -1
  else 999

/-- `_update_forecast`: full recomputation of the per-part forecast columns. -/
def updateForecast (db : DB) (part_id : Nat) : DB :=
  match getPart db part_id with
  | none => db
  | some part =>
    let adu30 : ℚ := (consumedSince db part_id 30 : ℚ) / 30
    let adu90 : ℚ := (consumedSince db part_id 90 : ℚ) / 90
    let wh := warehouseQty db part_id
    let min_level := part.min_stock_level.getD 0
    let target_level := part.target_stock_level.getD 0
    let days := daysUntilLowCalc adu30 wh min_level
    let suggested := if wh < target_level then target_level - wh else 0
    let reorder := min_level + ratTrunc (adu30 * 7)
    { db with parts := db.parts.map fun p =>
        if p.id == part_id then
          { p with
            forecast_adu_30 := some adu30, forecast_adu_90 := some adu90,
            forecast_days_until_low := some days,
            forecast_suggested_order := some suggested,
            forecast_reorder_point := some reorder,
            forecast_target_qty := some target_level,
            forecast_last_run := some db.now }
        else p }

/-- `_check_low_stock`: auto-create a one-item spot-check audit when the
warehouse quantity drops below the configured minimum. -/
def checkLowStock (db : DB) (part_id : Nat) : DB :=
  match getPart db part_id with
  | none => db
  | some part =>
    let target := part.target_stock_level.getD 0
    if target == 0 then db
    else
      let min_level := part.min_stock_level.getD 0
      if min_level ≤ 0 then db
      else
        let wh := warehouseQty db part_id
        if wh < min_level then
          let existing := db.audits.any fun a =>
            a.audit_type == "spot_check" &&
            (a.status == "in_progress" || a.status == "paused") &&
            db.audit_items.any fun ai => ai.audit_id == a.id && ai.part_id == part_id
          if existing then db
          else
            let audit : Audit :=
              { id := db.next_audit_id, audit_type := "spot_check",
                location_type := "warehouse", location_id := 1, started_by := 1,
                total_items := 1,
                notes := some ("Auto-created: " ++ part.name
                  ++ " dropped below minimum (" ++ toString wh ++ " < "
                  ++ toString min_level ++ ")") }
            let aitem : AuditItem :=
              { id := db.next_audit_item_id, audit_id := db.next_audit_id,
                part_id := part_id, expected_qty := wh }
            { db with
                audits := db.audits ++ [audit],
                audit_items := db.audit_items ++ [aitem],
                next_audit_id := db.next_audit_id + 1,
                next_audit_item_id := db.next_audit_item_id + 1 }
        else db

/-! ### Movement Executor (`_execute_single_line`, `execute_movement`) -/

/-- `_execute_single_line`: one line inside the batch transaction; a raised
`ValueError` becomes `Except.error`. -/
def execSingleLine (db : DB) (item : MovementLineItem) (req : MovementRequest)
    (movement_type : String) (performed_by : Nat) :
    Except String (DB × MovementResult) :=
  match getPart db item.part_id with
  | none => .error ("Part " ++ toString item.part_id ++ " not found")
  | some part =>
    let resolved := resolveSupplier db item req.from_location_type req.from_location_id
    let supplier_id := resolved.1
    let ded := deductStock db item.part_id req.from_location_type req.from_location_id
      item.qty supplier_id
    if !ded.2 then
      .error ("Insufficient stock for " ++ part.name ++ ": cannot deduct "
        ++ toString item.qty ++ " from " ++ req.from_location_type)
    else
      let added := addStock ded.1 item.part_id req.to_location_type req.to_location_id
        item.qty supplier_id
      let db3 :=
        if req.to_location_type == "pulled" && strTruthy req.destination_type then
          tagStaging added.1 added.2 (req.destination_type.getD "")
            (req.destination_id.getD 0) req.destination_label performed_by
        else added.1
      let db4 :=
        if req.from_location_type == "pulled" then
          clearStagingTagForPart db3 item.part_id req.from_location_id supplier_id
        else db3
      let logged := logMovement db4
        { part_id := item.part_id, qty := item.qty,
          from_location_type := some req.from_location_type,
          from_location_id := some req.from_location_id,
          to_location_type := some req.to_location_type,
          to_location_id := some req.to_location_id,
          supplier_id := supplier_id, movement_type := movement_type,
          reason := req.reason, notes := req.notes,
          reference_number := req.reference_number, job_id := req.job_id,
          performed_by := performed_by, photo_path := req.photo_path,
          scan_confirmed := req.scan_confirmed,
          unit_cost_at_move := part.company_cost_price,
          unit_sell_at_move := part.company_sell_price }
      .ok (logged.1,
        { movement_id := logged.2, part_id := item.part_id, part_name := part.name,
          qty := item.qty, movement_type := movement_type,
          from_location_type := some req.from_location_type,
          to_location_type := some req.to_location_type })

/-- The `for item in req.items` loop of `execute_movement`, threading the
uncommitted transaction state. -/
def executeLines (req : MovementRequest) (movement_type : String) (performed_by : Nat) :
    DB → List MovementLineItem → Except String (DB × List MovementResult)
  | db, [] => .ok (db, [])
  | db, item :: rest =>
    match execSingleLine db item req movement_type performed_by with
    | .error e => .error e
    | .ok (db1, res) =>
      match executeLines req movement_type performed_by db1 rest with
      | .error e => .error e
      | .ok (db2, results) => .ok (db2, res :: results)

/-- Post-commit side effects: forecast refresh and low-stock sentinel for every
distinct affected part (iteration order of the Python `set` is immaterial to
the claims; first-occurrence order is used). -/
def postMovementEffects (db : DB) (part_ids : List Nat) : DB :=
  part_ids.foldl (fun d pid => checkLowStock (updateForecast d pid) pid) db

/-- `execute_movement`: validate, run all lines in one transaction, commit on
success (then the non-transactional side effects) or roll back to the initial
state on any failure. -/
def executeMovement (db : DB) (req : MovementRequest) (performed_by : Nat) :
    DB × Except String MovementExecuteResponse :=
  let validation := validateMovement db req
  if !validation.valid then
    (db, .error ("Validation failed: "
      ++ String.intercalate "; " (validation.errors.map (·.message))))
  else
    let movement_type :=
      ((lookupRule (req.from_location_type, req.to_location_type)).map (·.type)).getD
        "transfer"
    match executeLines req movement_type performed_by db req.items with
    | .error e => (db, .error e)
    | .ok (db1, results) =>
      let db2 := postMovementEffects db1 (req.items.map (·.part_id)).eraseDups
      let resp : MovementExecuteResponse :=
        { movements := results, total_items := results.length,
          total_qty := (req.items.map (·.qty)).sum }
      (db2, .ok resp)

/-! ### Receive (`receive_stock`) -/

/-- Python `item.notes or req.notes` (truthiness: `None` and `""` fall through). -/
def strOr (a b : Option String) : Option String :=
  if strTruthy a then a else b

/-- The kwargs of the `_log_movement` call inside `receive_stock`. -/
def recvEntry (req : ReceiveStockRequest) (performed_by : Nat)
    (item : ReceiveStockItem) (part : Part) : MovementLogEntry :=
  { part_id := item.part_id, qty := item.qty,
    to_location_type := some "warehouse", to_location_id := some 1,
    supplier_id := item.supplier_id, movement_type := "receive",
    reason := req.reason, notes := strOr item.notes req.notes,
    reference_number := req.reference_number, performed_by := performed_by,
    unit_cost_at_move := part.company_cost_price,
    unit_sell_at_move := part.company_sell_price }

/-- The body of the `for item in req.items` loop of `receive_stock`:
warehouse upsert, receive log entry, optional shelf/bin update on the part.
Returns the new state and the movement id. -/
def receiveStep (db : DB) (req : ReceiveStockRequest) (performed_by : Nat)
    (item : ReceiveStockItem) (part : Part) : DB × Nat :=
  let added := addStock db item.part_id "warehouse" 1 item.qty item.supplier_id
  let logged := logMovement added.1 (recvEntry req performed_by item part)
  let db3 := { logged.1 with
    parts := logged.1.parts.map fun p =>
      if p.id == item.part_id then
        { p with
          shelf_location := if item.shelf_location.isSome then item.shelf_location
            else p.shelf_location,
          bin_location := if item.bin_location.isSome then item.bin_location
            else p.bin_location }
      else p }
  (db3, logged.2)

/-- The `for item in req.items` loop of `receive_stock`. -/
def receiveLines (req : ReceiveStockRequest) (performed_by : Nat) :
    DB → List ReceiveStockItem → Except String (DB × List Nat)
  | db, [] => .ok (db, [])
  | db, item :: rest =>
    match getPart db item.part_id with
    | none => .error ("Part ID " ++ toString item.part_id ++ " not found")
    | some part =>
      let step := receiveStep db req performed_by item part
      match receiveLines req performed_by step.1 rest with
      | .error e => .error e
      | .ok (dbf, mids) => .ok (dbf, step.2 :: mids)

/-- `receive_stock`: all items in one transaction (rollback on failure); on
commit, forecasts refresh for the distinct affected parts. -/
def receiveStock (db : DB) (req : ReceiveStockRequest) (performed_by : Nat) :
    DB × Except String ReceiveStockResult :=
  match receiveLines req performed_by db req.items with
  | .error e => (db, .error e)
  | .ok (db1, movement_ids) =>
    let db2 := ((req.items.map (·.part_id)).eraseDups).foldl updateForecast db1
    let resp : ReceiveStockResult :=
      { items_received := req.items.length,
        total_qty := (req.items.map (·.qty)).sum, movement_ids := movement_ids }
    (db2, .ok resp)

/-! ### Audit repo (`count_by_result`, `update_summary_counts`) -/

/-- The aggregate row of `count_by_result`: `COUNT(*)` is never NULL, but the
`SUM(CASE ...)` columns are NULL when the audit has no items. -/
structure ProgressCounts where
  total_items : Nat
  counted : Option Nat
  matched : Option Nat
  discrepancies : Option Nat
  skipped : Option Nat
  pending : Option Nat
  deriving Repr, DecidableEq

/-- `count_by_result` (the `pct_complete` float is not modelled). -/
def countByResult (db : DB) (audit_id : Nat) : ProgressCounts :=
  let items := db.audit_items.filter fun ai => ai.audit_id == audit_id
  if items.isEmpty then
    { total_items := 0, counted := none, matched := none,
      discrepancies := none, skipped := none, pending := none }
  else
    { total_items := items.length,
      counted := some (items.countP fun ai => ai.result != "pending"),
      matched := some (items.countP fun ai => ai.result == "match"),
      discrepancies := some (items.countP fun ai => ai.result == "discrepancy"),
      skipped := some (items.countP fun ai => ai.result == "skipped"),
      pending := some (items.countP fun ai => ai.result == "pending") }

/-- `update_summary_counts`: write the recomputed counts onto the audit row. -/
def updateSummaryCounts (db : DB) (audit_id : Nat) : DB :=
  let pc := countByResult db audit_id
  { db with audits := db.audits.map fun a =>
      if a.id == audit_id then
        { a with
          total_items := pc.total_items, matched_items := pc.matched,
          discrepancy_count := pc.discrepancies, skipped_count := pc.skipped }
      else a }

/-- `complete_audit`: refresh the cached counts, mark the session completed,
and return the progress used by the summary. -/
def completeAudit (db : DB) (audit_id : Nat) : DB × ProgressCounts :=
  let db1 := updateSummaryCounts db audit_id
  let db2 := { db1 with audits := db1.audits.map fun a =>
      if a.id == audit_id then
        { a with status := "completed", completed_at := some db1.now }
      else a }
  (db2, countByResult db2 audit_id)

/-! ### Apply adjustments (`apply_adjustments`, `get_items_for_audit`) -/

/-- Ordering key of `get_items_for_audit`: items with a shelf location first,
then shelf location, then part name. -/
def itemSortLe (db : DB) (a b : AuditItem) : Prop :=
  (match getPart db a.part_id, getPart db b.part_id with
    | some pa, some pb =>
      ((if pa.shelf_location.isSome then 0 else 1 : Nat), pa.shelf_location.getD "",
        pa.name) ≤
        ((if pb.shelf_location.isSome then 0 else 1 : Nat), pb.shelf_location.getD "",
          pb.name)
    | _, _ => True)

instance (db : DB) : DecidableRel (itemSortLe db) := fun a b => by
  unfold itemSortLe
  cases getPart db a.part_id <;> cases getPart db b.part_id <;>
    simp only [] <;> infer_instance

/-- `get_items_for_audit(audit_id, result_filter="discrepancy")`: the filter,
the `JOIN parts` (items whose part row is missing drop out), and the ordering.
Ties keep table order, as SQLite leaves them unspecified.  The relation is not
transitive across missing parts, so the sort is a plain insertion sort on the
decidable relation, which is what an SQL sort also guarantees here. -/
def discrepancyItems (db : DB) (audit_id : Nat) : List AuditItem :=
  List.insertionSort (itemSortLe db)
    (db.audit_items.filter fun ai =>
      ai.audit_id == audit_id && ai.result == "discrepancy" &&
        (getPart db ai.part_id).isSome)

/-- The positive-diff branch of `apply_adjustments`: `INSERT ... ON
CONFLICT(part_id, location_type, location_id, supplier_id) DO UPDATE`.  The
insert carries no supplier, so `supplier_id` is NULL, and SQLite unique
indexes treat NULLs as distinct: the conflict clause never fires and a fresh
NULL-supplier row is inserted. -/
def auditAdjustAdd (db : DB) (part_id : Nat) (lt : String) (lid : Nat) (diff : ℤ) : DB :=
  let row : StockRow :=
    { id := db.next_stock_id, part_id := part_id, location_type := lt,
      location_id := lid, supplier_id := none, qty := diff, updated_at := db.now }
  { db with
      stock := db.stock ++ [row],
      next_stock_id := db.next_stock_id + 1 }

/-- The negative-diff branch: `UPDATE stock SET qty = MAX(0, qty + ?) WHERE
part_id = ? AND location_type = ? AND location_id = ?` — note it hits every
supplier row at the location and deletes nothing. -/
def auditAdjustRemove (db : DB) (part_id : Nat) (lt : String) (lid : Nat) (diff : ℤ) : DB :=
  { db with stock := db.stock.map fun r =>
      if r.part_id == part_id && r.location_type == lt && r.location_id == lid then
        { r with qty := max 0 (r.qty + diff), updated_at := db.now }
      else r }

/-- One iteration of the `for item in items` loop of `apply_adjustments`:
returns the new state and how much `count` grew. -/
def applyOneAdjustment (audit_id : Nat) (a : Audit) (user_id : Nat)
    (db : DB) (item : AuditItem) : DB × Nat :=
  match item.actual_qty with
  | none => (db, 0)
  | some actual =>
    let diff := actual - item.expected_qty
    if diff = 0 then (db, 0)
    else
      let db1 :=
        if diff > 0 then auditAdjustAdd db item.part_id a.location_type a.location_id diff
        else auditAdjustRemove db item.part_id a.location_type a.location_id diff
      let reason :=
        if diff > 0 then
          "Audit #" ++ toString audit_id ++ ": found " ++ toString diff ++ " extra"
        else
          "Audit #" ++ toString audit_id ++ ": missing " ++ toString (-diff)
      let logged := logMovement db1
        { part_id := item.part_id, qty := |diff|,
          from_location_type := if diff < 0 then some a.location_type else none,
          from_location_id := if diff < 0 then some a.location_id else none,
          to_location_type := if diff > 0 then some a.location_type else none,
          to_location_id := if diff > 0 then some a.location_id else none,
          movement_type := "adjust", reason := some reason,
          performed_by := user_id, notes := item.discrepancy_note }
      (logged.1, 1)

/-- `apply_adjustments`: apply every discrepancy, touch `last_counted` on the
audited rows, then refresh forecasts; returns the number applied. -/
def applyAdjustments (db : DB) (audit_id : Nat) (user_id : Nat) : DB × Nat :=
  let items := discrepancyItems db audit_id
  if items.isEmpty then (db, 0)
  else
    match db.audits.find? fun a => a.id == audit_id with
    | none => (db, 0)
    | some a =>
      let applied := items.foldl
        (fun (acc : DB × Nat) item =>
          let step := applyOneAdjustment audit_id a user_id acc.1 item
          (step.1, acc.2 + step.2))
        (db, 0)
      let db1 := applied.1
      let auditParts := (db1.audit_items.filter fun ai => ai.audit_id == audit_id).map
        (·.part_id)
      let db2 := { db1 with stock := db1.stock.map fun r =>
          if r.location_type == a.location_type && r.location_id == a.location_id &&
              auditParts.contains r.part_id then
            { r with last_counted := some db1.now }
          else r }
      let db3 := (items.map (·.part_id)).foldl updateForecast db2
      (db3, applied.2)

/-! ### Claim-side vocabulary -/

/-- The uniqueness key of the `stock` table declared in the data model:
(part, location-type, location-id, supplier). -/
def keyOf (r : StockRow) : Nat × String × Nat × Option Nat :=
  (r.part_id, r.location_type, r.location_id, r.supplier_id)

/-- Stock-table well-formedness: distinct rowids, rowids below the allocator,
and the declared uniqueness of (part, location-type, location-id, supplier). -/
structure WF (db : DB) : Prop where
  ids_nodup : (db.stock.map (·.id)).Nodup
  ids_lt : ∀ r ∈ db.stock, r.id < db.next_stock_id
  keys_nodup : (db.stock.map keyOf).Nodup

/-- Rowid well-formedness alone (what SQLite itself guarantees). -/
structure WFids (db : DB) : Prop where
  ids_nodup : (db.stock.map (·.id)).Nodup
  ids_lt : ∀ r ∈ db.stock, r.id < db.next_stock_id

/-- All on-hand quantities are non-negative. -/
def NonNeg (db : DB) : Prop := ∀ r ∈ db.stock, 0 ≤ r.qty

/-- Membership of a stock row at a location. -/
def atLoc (L : String × Nat) (r : StockRow) : Bool :=
  r.location_type == L.1 && r.location_id == L.2

/-- Total on-hand quantity of a list of rows at one location. -/
def listLocTotal (l : List StockRow) (L : String × Nat) : ℤ :=
  ((l.filter (atLoc L)).map (·.qty)).sum

/-- The stock rows sitting at one location (any part, any supplier). -/
def rowsAt (db : DB) (lt : String) (lid : Nat) : List StockRow :=
  db.stock.filter (atLoc (lt, lid))

/-- Total on-hand quantity at one location, summed over parts and suppliers. -/
def locTotal (db : DB) (L : String × Nat) : ℤ :=
  listLocTotal db.stock L

/-- The stock rows for one part at one location (any supplier). -/
def partLocRows (db : DB) (part_id : Nat) (lt : String) (lid : Nat) : List StockRow :=
  db.stock.filter fun r =>
    r.part_id == part_id && r.location_type == lt && r.location_id == lid

/-- Total quantity of one part at one location. -/
def partLocTotal (db : DB) (part_id : Nat) (lt : String) (lid : Nat) : ℤ :=
  ((partLocRows db part_id lt lid).map (·.qty)).sum

/-- Quantity one specific supplier holds for a part at a location. -/
def supplierQtyAt (db : DB) (part_id : Nat) (lt : String) (lid : Nat) (sid : Nat) : ℤ :=
  ((db.stock.filter fun r => keyOf r == (part_id, lt, lid, some sid)).map (·.qty)).sum

/-- Sum of the line quantities of a batch. -/
def batchQty (req : MovementRequest) : ℤ := (req.items.map (·.qty)).sum

/-- Every line quantity respects the Pydantic bound `qty: int = Field(ge=1)`. -/
def ReqOK (req : MovementRequest) : Prop := ∀ it ∈ req.items, 1 ≤ it.qty

/-- The engine operations that touch the stock table, as named in the
no-negative-stock claim: guarded/pooled deduction (`_deduct_stock` falls back to
`_deduct_stock_pooled` itself), destination upsert, audit adjustment. -/
inductive StockOp where
  | move_deduct (part_id : Nat) (lt : String) (lid : Nat) (qty : ℤ) (supplier_id : Option Nat)
  | move_add (part_id : Nat) (lt : String) (lid : Nat) (qty : ℤ) (supplier_id : Option Nat)
  | audit_adjust (part_id : Nat) (lt : String) (lid : Nat) (diff : ℤ)
  deriving Repr, DecidableEq

/-- Run one stock operation through the service functions themselves. -/
def applyStockOp (db : DB) : StockOp → DB
  | .move_deduct pid lt lid q sid => (deductStock db pid lt lid q sid).1
  | .move_add pid lt lid q sid => (addStock db pid lt lid q sid).1
  | .audit_adjust pid lt lid diff =>
    if diff > 0 then auditAdjustAdd db pid lt lid diff
    else auditAdjustRemove db pid lt lid diff

/-- Validity of the operation arguments as the callers establish them:
`_add_stock` is only ever called with a Pydantic-checked quantity `≥ 1`. -/
def StockOpOK : StockOp → Prop
  | .move_add _ _ _ q _ => 1 ≤ q
  | _ => True

/-! ### Concrete databases used by witnesses and counterexamples -/

/-- Part used by the witness scenarios. -/
def wPart : Part :=
  { id := 1, name := "P", min_stock_level := some 10, target_stock_level := some 20 }

/-- Scenario database: 10 units of part 1 from supplier 7 in the warehouse. -/
def wDB : DB :=
  { parts := [wPart],
    suppliers := [{ id := 7, name := "S" }],
    stock := [{ id := 1, part_id := 1, location_type := "warehouse", location_id := 1,
                supplier_id := some 7, qty := 10, updated_at := 5 }],
    next_stock_id := 2, now := 100 }

/-- Transfer of 6 units of part 1 from the warehouse to staging. -/
def wReq : MovementRequest :=
  { from_location_type := "warehouse", to_location_type := "pulled",
    items := [{ part_id := 1, qty := 6 }] }

/-- Over-large request: 50 units when only 10 are available. -/
def wReqBig : MovementRequest :=
  { from_location_type := "warehouse", to_location_type := "pulled",
    items := [{ part_id := 1, qty := 50 }] }

/-- Receive request whose part id 99 does not exist. -/
def wRecvBad : ReceiveStockRequest :=
  { items := [{ part_id := 99, qty := 4 }] }

/-- Forecast counterexample state: 60 units consumed to a truck within the
trailing 30 days (so adu_30 = 2), 9 units in the warehouse, minimum 10. -/
def fcDB : DB :=
  { parts := [wPart],
    stock := [{ id := 1, part_id := 1, location_type := "warehouse", location_id := 1,
                qty := 9, updated_at := 5 }],
    movements := [{ id := 1, part_id := 1, qty := 60, movement_type := "transfer",
                    to_location_type := some "truck", created_at := 95 }],
    next_stock_id := 2, next_movement_id := 2, now := 100 }

/-- Audit counterexample state: warehouse holds part 1 from two suppliers
(5 and 3 units); a discrepancy records 6 counted against 8 expected. -/
def adjDB : DB :=
  { parts := [wPart],
    stock := [{ id := 1, part_id := 1, location_type := "warehouse", location_id := 1,
                supplier_id := some 7, qty := 5, updated_at := 5 },
              { id := 2, part_id := 1, location_type := "warehouse", location_id := 1,
                supplier_id := some 8, qty := 3, updated_at := 6 }],
    audits := [{ id := 1, audit_type := "spot_check", location_type := "warehouse",
                 location_id := 1, started_by := 1 }],
    audit_items := [{ id := 1, audit_id := 1, part_id := 1, expected_qty := 8,
                      actual_qty := some 6, result := "discrepancy" }],
    next_stock_id := 3, now := 100 }

/-- Zero-row counterexample state: one row of 3 units written off entirely by
an audit discrepancy (counted 0 against 3 expected). -/
def zeroDB : DB :=
  { parts := [wPart],
    stock := [{ id := 1, part_id := 1, location_type := "warehouse", location_id := 1,
                supplier_id := some 7, qty := 3, updated_at := 5 }],
    audits := [{ id := 1, audit_type := "spot_check", location_type := "warehouse",
                 location_id := 1, started_by := 1 }],
    audit_items := [{ id := 1, audit_id := 1, part_id := 1, expected_qty := 3,
                      actual_qty := some 0, result := "discrepancy" }],
    next_stock_id := 2, now := 100 }

/-- Completion counterexample state: an audit completed while its only item is
still pending. -/
def pendDB : DB :=
  { audits := [{ id := 1, audit_type := "spot_check", location_type := "warehouse",
                 location_id := 1, started_by := 1, total_items := 1 }],
    audit_items := [{ id := 1, audit_id := 1, part_id := 1, expected_qty := 4 }],
    now := 100 }

/-- Audit state with every item counted (used by the amended-claim witness). -/
def doneDB : DB :=
  { audits := [{ id := 1, audit_type := "spot_check", location_type := "warehouse",
                 location_id := 1, started_by := 1, total_items := 2 }],
    audit_items := [{ id := 1, audit_id := 1, part_id := 1, expected_qty := 4,
                      actual_qty := some 4, result := "match" },
                    { id := 2, audit_id := 1, part_id := 2, expected_qty := 3,
                      actual_qty := some 5, result := "discrepancy" }],
    now := 100 }

/-- The forecast columns `_update_forecast` writes onto the part row. -/
def forecastUpdatedPart (db : DB) (pid : Nat) (part : Part) : Part :=
  { part with
    forecast_adu_30 := some ((consumedSince db pid 30 : ℚ) / 30),
    forecast_adu_90 := some ((consumedSince db pid 90 : ℚ) / 90),
    forecast_days_until_low := some (daysUntilLowCalc
      ((consumedSince db pid 30 : ℚ) / 30) (warehouseQty db pid)
      (part.min_stock_level.getD 0)),
    forecast_suggested_order := some (if warehouseQty db pid <
        part.target_stock_level.getD 0 then
      part.target_stock_level.getD 0 - warehouseQty db pid else 0),
    forecast_reorder_point := some (part.min_stock_level.getD 0 +
      ratTrunc ((consumedSince db pid 30 : ℚ) / 30 * 7)),
    forecast_target_qty := some (part.target_stock_level.getD 0),
    forecast_last_run := some db.now }

/-- The audit row after completing `doneDB`'s audit (both items counted). -/
def doneRow : Audit :=
  { id := 1, audit_type := "spot_check", location_type := "warehouse",
    location_id := 1, started_by := 1, status := "completed",
    total_items := 2, matched_items := some 1, discrepancy_count := some 1,
    skipped_count := some 0, completed_at := some 100 }

/-- Warning counterexample state: destination already close to the part's
maximum stock level. -/
def warnDB : DB :=
  { parts := [{ id := 1, name := "P", max_stock_level := some 5 }],
    stock := [{ id := 1, part_id := 1, location_type := "warehouse", location_id := 1,
                supplier_id := some 7, qty := 10, updated_at := 5 }],
    next_stock_id := 2, now := 100 }

/-- Batch that triggers the destination-exceeds-maximum warning only. -/
def warnReq : MovementRequest :=
  { from_location_type := "warehouse", to_location_type := "truck",
    items := [{ part_id := 1, qty := 6 }] }

/-- Batch moving the full 10 units, so the source lands on exactly zero. -/
def wReqAll : MovementRequest :=
  { from_location_type := "warehouse", to_location_type := "pulled",
    items := [{ part_id := 1, qty := 10 }] }

/-- Receive request used by the witness scenarios. -/
def wRecv : ReceiveStockRequest :=
  { items := [{ part_id := 1, qty := 4, supplier_id := some 7 }] }

/-- The per-line result of the witness transfer. -/
def wResult : MovementResult :=
  { movement_id := 1, part_id := 1, part_name := "P", qty := 6,
    movement_type := "transfer", from_location_type := some "warehouse",
    to_location_type := some "pulled" }

/-- The response of the witness transfer. -/
def wResp : MovementExecuteResponse :=
  { movements := [wResult], total_items := 1, total_qty := 6 }

/-- Supplier-resolution witness state: a category-level preference for
supplier 9 which is out of stock, plus FIFO candidates from suppliers 7/8. -/
def resDB : DB :=
  { parts := [{ id := 1, name := "P", category_id := some 4 }],
    suppliers := [{ id := 7, name := "S7" }, { id := 8, name := "S8" },
                  { id := 9, name := "S9" }],
    supplier_prefs := [{ scope_type := "category", scope_id := 4, supplier_id := 9 }],
    stock := [{ id := 1, part_id := 1, location_type := "warehouse", location_id := 1,
                supplier_id := some 8, qty := 4, updated_at := 9 },
              { id := 2, part_id := 1, location_type := "warehouse", location_id := 1,
                supplier_id := some 7, qty := 5, updated_at := 3 }],
    next_stock_id := 3, now := 100 }

/-! ### Generic list lemmas -/

theorem filter_map_of_pred (l : List StockRow) (g : StockRow → StockRow)
    (p : StockRow → Bool) (h : ∀ r, p (g r) = p r) :
    (l.map g).filter p = (l.filter p).map g := by
  rw [List.filter_map]
  congr 1
  exact List.filter_congr fun r _ => h r

theorem sum_qty_map (l : List StockRow) (g : StockRow → StockRow) :
    ((l.map g).map (·.qty)).sum = (l.map fun r => (g r).qty).sum := by
  rw [List.map_map]
  rfl

theorem sum_sub_ite (l : List StockRow) (p : StockRow → Bool) (q : ℤ) :
    (l.map fun r => r.qty - if p r then q else 0).sum
      = (l.map (·.qty)).sum - q * (l.countP p : ℤ) := by
  induction l with
  | nil => simp
  | cons a t ih =>
    by_cases h : p a <;>
      simp only [List.map_cons, List.sum_cons, List.countP_cons, h, if_true, if_false,
        ite_true, ite_false, ih] <;> push_cast <;> ring

theorem countP_le_one_of_nodup_map {α β : Type} [BEq β] [LawfulBEq β] (l : List α)
    (f : α → β) (hn : (l.map f).Nodup) (b : β) :
    l.countP (fun a => f a == b) ≤ 1 := by
  induction l with
  | nil => simp
  | cons a t ih =>
    rw [List.map_cons, List.nodup_cons] at hn
    by_cases h : f a = b
    · have ht : t.countP (fun x => f x == b) = 0 := by
        rw [List.countP_eq_zero]
        intro x hx hfx
        rw [beq_iff_eq] at hfx
        exact hn.1 (h ▸ hfx ▸ List.mem_map_of_mem f hx)
      simp [List.countP_cons, h, ht]
    · simpa [List.countP_cons, h] using ih hn.2

theorem listLocTotal_append (l : List StockRow) (row : StockRow) (L : String × Nat) :
    listLocTotal (l ++ [row]) L
      = listLocTotal l L + (if atLoc L row then row.qty else 0) := by
  by_cases h : atLoc L row <;>
    simp [listLocTotal, List.filter_append, h]

theorem listLocTotal_filter_zero (l : List StockRow) (pdel : StockRow → Bool)
    (h : ∀ r ∈ l, pdel r = true → r.qty = 0) (L : String × Nat) :
    listLocTotal (l.filter fun r => !pdel r) L = listLocTotal l L := by
  induction l with
  | nil => rfl
  | cons a t ih =>
    have iht := ih fun r hr => h r (List.mem_cons_of_mem a hr)
    by_cases hd : pdel a
    · have hq : a.qty = 0 := h a (List.mem_cons_self a t) hd
      by_cases hl : atLoc L a <;>
        simp [listLocTotal, List.filter_cons, hd, hl, hq] <;>
        simpa [listLocTotal, hl] using iht
    · by_cases hl : atLoc L a <;>
        simp [listLocTotal, List.filter_cons, hd, hl] <;>
        simpa [listLocTotal, hl] using iht

theorem map_map_eq_of_pointwise {α β : Type} (l : List α) (g : α → α) (f : α → β)
    (h : ∀ r, f (g r) = f r) : (l.map g).map f = l.map f := by
  rw [List.map_map]
  exact List.map_congr_left fun r _ => h r

/-! ### `pooledTakes` facts -/

theorem pooledTakes_ids_sublist (rem : ℤ) (rows : List StockRow) :
    ((pooledTakes rem rows).map (·.1)).Sublist (rows.map (·.id)) := by
  induction rows generalizing rem with
  | nil => simp [pooledTakes]
  | cons r rs ih =>
    rw [pooledTakes]
    by_cases h : rem ≤ 0
    · simp [h]
    · simp only [h, if_false, List.map_cons]
      exact List.Sublist.cons₂ _ (ih _)

theorem pooledTakes_mem (rem : ℤ) (rows : List StockRow)
    (hrows : ∀ r ∈ rows, 0 < r.qty) :
    ∀ t ∈ pooledTakes rem rows, ∃ r ∈ rows, t.1 = r.id ∧ 0 < t.2 ∧ t.2 ≤ r.qty := by
  induction rows generalizing rem with
  | nil => simp [pooledTakes]
  | cons r rs ih =>
    intro t ht
    rw [pooledTakes] at ht
    by_cases h : rem ≤ 0
    · simp [h] at ht
    · simp only [h, if_false, List.mem_cons] at ht
      rcases ht with ht | ht
      · refine ⟨r, List.mem_cons_self r rs, ?_⟩
        subst ht
        refine ⟨rfl, ?_, min_le_left _ _⟩
        exact lt_min (hrows r (List.mem_cons_self r rs)) (lt_of_not_le h)
      · obtain ⟨r', hr', h1, h2, h3⟩ :=
          ih _ (fun x hx => hrows x (List.mem_cons_of_mem r hx)) t ht
        exact ⟨r', List.mem_cons_of_mem r hr', h1, h2, h3⟩

theorem pooledTakes_sum (rem : ℤ) (rows : List StockRow)
    (hrows : ∀ r ∈ rows, 0 < r.qty) (h0 : 0 ≤ rem)
    (hle : rem ≤ (rows.map (·.qty)).sum) :
    ((pooledTakes rem rows).map (·.2)).sum = rem := by
  induction rows generalizing rem with
  | nil =>
    simp only [List.map_nil, List.sum_nil] at hle
    simp [pooledTakes, le_antisymm hle h0]
  | cons r rs ih =>
    rw [pooledTakes]
    by_cases h : rem ≤ 0
    · simp [h, le_antisymm h h0]
    · have hq := hrows r (List.mem_cons_self r rs)
      have htake : min r.qty rem ≤ rem := min_le_right _ _
      have h0' : 0 ≤ rem - min r.qty rem := by omega
      have hle' : rem - min r.qty rem ≤ (rs.map (·.qty)).sum := by
        rcases min_cases r.qty rem with ⟨hm, hc⟩ | ⟨hm, hc⟩
        · rw [hm]
          simp only [List.map_cons, List.sum_cons] at hle
          omega
        · rw [hm]
          have : 0 ≤ (rs.map (·.qty)).sum :=
            List.sum_nonneg fun x hx => by
              obtain ⟨r', hr', hx'⟩ := List.mem_map.mp hx
              exact hx' ▸ le_of_lt (hrows r' (List.mem_cons_of_mem r hr'))
          omega
      simp only [h, if_false, List.map_cons, List.sum_cons]
      rw [ih _ (fun x hx => hrows x (List.mem_cons_of_mem r hx)) h0' hle']
      omega

/-! ### `applyTake` facts -/

theorem atLoc_unique {L L' : String × Nat} {r : StockRow}
    (h : atLoc L r = true) (h' : atLoc L' r = true) : L = L' := by
  unfold atLoc at h h'
  simp only [Bool.and_eq_true, beq_iff_eq] at h h'
  obtain ⟨h1, h2⟩ := h
  obtain ⟨h1', h2'⟩ := h'
  exact Prod.ext (h1 ▸ h1') (h2 ▸ h2')

theorem applyTake_eq_map (now : Nat) (stock : List StockRow) (t : Nat × ℤ) :
    applyTake now stock t = stock.map fun r =>
      if r.id == t.1 then { r with qty := r.qty - t.2, updated_at := now } else r := rfl

theorem applyTake_atLoc (t : Nat × ℤ) (now : Nat) (L : String × Nat) (r : StockRow) :
    atLoc L (if r.id == t.1 then { r with qty := r.qty - t.2, updated_at := now } else r)
      = atLoc L r := by
  by_cases h : r.id == t.1 <;> simp [atLoc, h]

theorem applyTake_ids (now : Nat) (stock : List StockRow) (t : Nat × ℤ) :
    (applyTake now stock t).map (·.id) = stock.map (·.id) := by
  rw [applyTake_eq_map]
  exact map_map_eq_of_pointwise _ _ _ fun r => by
    by_cases h : r.id == t.1 <;> simp [h]

theorem applyTake_keys (now : Nat) (stock : List StockRow) (t : Nat × ℤ) :
    (applyTake now stock t).map keyOf = stock.map keyOf := by
  rw [applyTake_eq_map]
  exact map_map_eq_of_pointwise _ _ _ fun r => by
    by_cases h : r.id == t.1 <;> simp [keyOf, h]

theorem applyTake_listLocTotal (now : Nat) (stock : List StockRow) (t : Nat × ℤ)
    (r₀ : StockRow) (hn : (stock.map (·.id)).Nodup) (hr₀ : r₀ ∈ stock)
    (hid : r₀.id = t.1) (L : String × Nat) :
    listLocTotal (applyTake now stock t) L
      = listLocTotal stock L - (if atLoc L r₀ then t.2 else 0) := by
  rw [applyTake_eq_map]
  unfold listLocTotal
  rw [filter_map_of_pred _ _ _ (applyTake_atLoc t now L), sum_qty_map]
  have hpt : ∀ r : StockRow,
      (if r.id == t.1 then { r with qty := r.qty - t.2, updated_at := now } else r).qty
        = r.qty - (if (fun x : StockRow => x.id == t.1) r then t.2 else 0) := by
    intro r
    by_cases h : r.id == t.1 <;> simp [h]
  rw [List.map_congr_left fun r _ => hpt r, sum_sub_ite]
  have hcount : ((stock.filter (atLoc L)).countP fun x => x.id == t.1)
      = (if atLoc L r₀ then 1 else 0) := by
    by_cases hL : atLoc L r₀
    · rw [if_pos hL]
      refine le_antisymm ?_ ?_
      · calc ((stock.filter (atLoc L)).countP fun x => x.id == t.1)
            ≤ (stock.countP fun x => x.id == t.1) :=
              List.Sublist.countP_le _ (List.filter_sublist stock)
          _ ≤ 1 := by
              have := countP_le_one_of_nodup_map stock (·.id) hn t.1
              simpa using this
      · have : 0 < ((stock.filter (atLoc L)).countP fun x => x.id == t.1) := by
          rw [List.countP_pos_iff]
          exact ⟨r₀, List.mem_filter.mpr ⟨hr₀, hL⟩, by simp [hid]⟩
        omega
    · rw [if_neg hL, List.countP_eq_zero]
      intro r hr hb
      rw [beq_iff_eq] at hb
      obtain ⟨hrs, hrl⟩ := List.mem_filter.mp hr
      have : r = r₀ := List.inj_on_of_nodup_map hn hrs hr₀ (by simp [hb, hid])
      exact hL (this ▸ hrl)
  rw [hcount]
  by_cases hL : atLoc L r₀ <;> simp [hL]

theorem foldl_applyTake_listLocTotal (now : Nat) (L₀ : String × Nat) :
    ∀ (takes : List (Nat × ℤ)) (stock : List StockRow),
      (stock.map (·.id)).Nodup →
      ((takes.map (·.1)).Nodup) →
      (∀ t ∈ takes, ∃ r ∈ stock, r.id = t.1) →
      (∀ t ∈ takes, ∀ r ∈ stock, r.id = t.1 → atLoc L₀ r = true) →
      ∀ L, listLocTotal (takes.foldl (applyTake now) stock) L
        = listLocTotal stock L - (if L = L₀ then ((takes.map (·.2)).sum) else 0) := by
  intro takes
  induction takes with
  | nil => intro stock _ _ _ _ L; simp
  | cons t ts ih =>
    intro stock hn hnt hex hloc L
    obtain ⟨r₀, hr₀, hidr⟩ := hex t (List.mem_cons_self t ts)
    have hat : atLoc L₀ r₀ = true := hloc t (List.mem_cons_self t ts) r₀ hr₀ hidr
    have step := applyTake_listLocTotal now stock t r₀ hn hr₀ hidr
    have hn' : ((applyTake now stock t).map (·.id)).Nodup := by
      rw [applyTake_ids]; exact hn
    have hex' : ∀ u ∈ ts, ∃ r ∈ applyTake now stock t, r.id = u.1 := by
      intro u hu
      obtain ⟨r, hr, hru⟩ := hex u (List.mem_cons_of_mem t hu)
      refine ⟨if r.id == t.1 then { r with qty := r.qty - t.2, updated_at := now } else r,
        ?_, ?_⟩
      · rw [applyTake_eq_map]
        exact List.mem_map_of_mem _ hr
      · have hidp :
            (if r.id == t.1 then { r with qty := r.qty - t.2, updated_at := now } else r).id
              = r.id := by
          by_cases h : r.id == t.1 <;> simp [h]
        rw [hidp]
        exact hru
    have hloc' : ∀ u ∈ ts, ∀ r ∈ applyTake now stock t, r.id = u.1 → atLoc L₀ r = true := by
      intro u hu r' hr' hru
      rw [applyTake_eq_map] at hr'
      obtain ⟨r, hr, hrr⟩ := List.mem_map.mp hr'
      have hids : r'.id = r.id := by
        subst hrr
        by_cases h : r.id == t.1 <;> simp [h]
      have hal : atLoc L₀ r' = atLoc L₀ r := by
        subst hrr
        exact applyTake_atLoc t now L₀ r
      rw [hal]
      exact hloc u (List.mem_cons_of_mem t hu) r hr (by omega)
    have rest := ih (applyTake now stock t) hn' (by
        rw [List.map_cons, List.nodup_cons] at hnt
        exact hnt.2) hex' hloc' L
    rw [List.foldl_cons] at *
    rw [rest, step]
    have hLiff : atLoc L r₀ = true ↔ L = L₀ := by
      constructor
      · intro h; exact atLoc_unique h hat
      · intro h; exact h ▸ hat
    by_cases hL : L = L₀
    · rw [if_pos hL, if_pos (hLiff.mpr hL), if_pos hL]
      simp only [List.map_cons, List.sum_cons]
      ring
    · rw [if_neg hL, if_neg (fun hh => hL (hLiff.mp hh)), if_neg hL]
      ring

theorem foldl_applyTake_nonneg (now : Nat) :
    ∀ (takes : List (Nat × ℤ)) (stock : List StockRow),
      (∀ r ∈ stock, 0 ≤ r.qty) →
      ((takes.map (·.1)).Nodup) →
      (∀ t ∈ takes, ∀ r ∈ stock, r.id = t.1 → t.2 ≤ r.qty) →
      ∀ r ∈ takes.foldl (applyTake now) stock, 0 ≤ r.qty := by
  intro takes
  induction takes with
  | nil => intro stock hnn _ _ r hr; exact hnn r hr
  | cons t ts ih =>
    intro stock hnn hnt hbd
    rw [List.foldl_cons]
    refine ih (applyTake now stock t) ?_ ?_ ?_
    · intro r' hr'
      rw [applyTake_eq_map] at hr'
      obtain ⟨r, hr, hrr⟩ := List.mem_map.mp hr'
      subst hrr
      by_cases h : r.id == t.1
      · have hb := hbd t (List.mem_cons_self t ts) r hr (by simpa using h)
        rw [if_pos h]
        show 0 ≤ r.qty - t.2
        omega
      · rw [if_neg h]
        exact hnn r hr
    · rw [List.map_cons, List.nodup_cons] at hnt
      exact hnt.2
    · intro u hu r' hr' hru
      rw [applyTake_eq_map] at hr'
      obtain ⟨r, hr, hrr⟩ := List.mem_map.mp hr'
      have hne : u.1 ≠ t.1 := by
        rw [List.map_cons, List.nodup_cons] at hnt
        intro hcon
        exact hnt.1 (hcon ▸ List.mem_map_of_mem _ hu)
      by_cases h : r.id == t.1
      · exfalso
        subst hrr
        rw [if_pos h] at hru
        rw [beq_iff_eq] at h
        exact hne (hru ▸ h ▸ rfl)
      · subst hrr
        rw [if_neg h] at hru ⊢
        exact hbd u (List.mem_cons_of_mem t hu) r hr hru

/-! ### Effect of a guarded conditional update on a location total -/

theorem listLocTotal_map_upd (L : String × Nat) (δ : ℤ) (l : List StockRow)
    (p : StockRow → Bool) (f : StockRow → StockRow)
    (hl : ∀ r, atLoc L (f r) = atLoc L r) (hq : ∀ r, (f r).qty = r.qty - δ) :
    listLocTotal (l.map fun r => if p r then f r else r) L
      = listLocTotal l L - δ * ((l.countP fun r => atLoc L r && p r : Nat) : ℤ) := by
  unfold listLocTotal
  rw [filter_map_of_pred _ _ _ (fun r => by by_cases h : p r <;> simp [h, hl r]),
    sum_qty_map]
  have hpt : ∀ r : StockRow,
      ((fun r => if p r then f r else r) r).qty = r.qty - (if p r then δ else 0) := by
    intro r
    by_cases h : p r <;> simp [h, hq r]
  rw [List.map_congr_left fun r _ => hpt r, sum_sub_ite, List.countP_filter]
  have : (l.countP fun a => p a && atLoc L a) = l.countP fun r => atLoc L r && p r :=
    List.countP_congr fun r _ => by by_cases h1 : p r <;> by_cases h2 : atLoc L r <;>
      simp [h1, h2]
  rw [this]

/-! ### Well-formedness preservation building blocks -/

theorem foldl_applyTake_ids (now : Nat) (takes : List (Nat × ℤ)) :
    ∀ stock, (takes.foldl (applyTake now) stock).map (·.id) = stock.map (·.id) := by
  induction takes with
  | nil => intro stock; rfl
  | cons t ts ih =>
    intro stock
    rw [List.foldl_cons, ih, applyTake_ids]

theorem foldl_applyTake_keys (now : Nat) (takes : List (Nat × ℤ)) :
    ∀ stock, (takes.foldl (applyTake now) stock).map keyOf = stock.map keyOf := by
  induction takes with
  | nil => intro stock; rfl
  | cons t ts ih =>
    intro stock
    rw [List.foldl_cons, ih, applyTake_keys]

theorem ids_bound_of_map_eq {stock₁ stock₂ : List StockRow} {n : Nat}
    (hmap : stock₂.map (·.id) = stock₁.map (·.id))
    (hb : ∀ r ∈ stock₁, r.id < n) : ∀ r ∈ stock₂, r.id < n := by
  intro r hr
  have : r.id ∈ stock₂.map (·.id) := List.mem_map_of_mem _ hr
  rw [hmap] at this
  obtain ⟨r', hr', hid⟩ := List.mem_map.mp this
  exact hid ▸ hb r' hr'

theorem deleteZeroRows_sublist (l : List StockRow) (pid : Nat) (lt : String) (lid : Nat) :
    (deleteZeroRows l pid lt lid).Sublist l := List.filter_sublist l

/-! ### Per-operation effect lemmas -/

theorem deductStockPooled_effect (db : DB) (pid : Nat) (lt : String) (lid : Nat)
    (q : ℤ) (db₂ : DB) (hq : 0 ≤ q) (hwf : WF db)
    (h : deductStockPooled db pid lt lid q = (db₂, true)) :
    (∀ L, locTotal db₂ L = locTotal db L - (if L = (lt, lid) then q else 0)) ∧ WF db₂ := by
  unfold deductStockPooled at h
  set rows := positiveRowsByAge db pid lt lid with hrows_def
  by_cases hins : (rows.map (·.qty)).sum < q
  · rw [if_pos hins] at h
    exact absurd (congrArg Prod.snd h) (by simp)
  · rw [if_neg hins] at h
    have hdb₂ : db₂ = { db with
        stock := deleteZeroRows ((pooledTakes q rows).foldl (applyTake db.now) db.stock)
          pid lt lid } := (congrArg Prod.fst h).symm
    have hmemrows : ∀ r ∈ rows, r ∈ db.stock ∧
        (r.part_id == pid && r.location_type == lt && r.location_id == lid &&
          decide (0 < r.qty)) = true := by
      intro r hr
      rw [hrows_def] at hr
      unfold positiveRowsByAge at hr
      rw [(List.perm_insertionSort byUpdatedAt _).mem_iff] at hr
      exact ⟨(List.mem_filter.mp hr).1, (List.mem_filter.mp hr).2⟩
    have hrowspos : ∀ r ∈ rows, 0 < r.qty := by
      intro r hr
      have := (hmemrows r hr).2
      simp only [Bool.and_eq_true, decide_eq_true_eq] at this
      exact this.2
    have hrowsloc : ∀ r ∈ rows, atLoc (lt, lid) r = true := by
      intro r hr
      have := (hmemrows r hr).2
      simp only [Bool.and_eq_true, beq_iff_eq] at this
      simp [atLoc, this.1.1.2, this.1.2]
    have hrowsids : (rows.map (·.id)).Nodup := by
      have hperm : List.Perm (rows.map (·.id))
          ((db.stock.filter fun r =>
            r.part_id == pid && r.location_type == lt && r.location_id == lid &&
              decide (0 < r.qty)).map (·.id)) := by
        exact (List.perm_insertionSort byUpdatedAt _).map _
      rw [hperm.nodup_iff]
      exact List.Nodup.sublist (List.Sublist.map (·.id) (List.filter_sublist db.stock))
        hwf.ids_nodup
    have htids : ((pooledTakes q rows).map (·.1)).Nodup :=
      List.Nodup.sublist (pooledTakes_ids_sublist q rows) hrowsids
    have hex : ∀ t ∈ pooledTakes q rows, ∃ r ∈ db.stock, r.id = t.1 := by
      intro t ht
      obtain ⟨r, hr, h1, _, _⟩ := pooledTakes_mem q rows hrowspos t ht
      exact ⟨r, (hmemrows r hr).1, h1.symm⟩
    have hloc : ∀ t ∈ pooledTakes q rows, ∀ r ∈ db.stock, r.id = t.1 →
        atLoc (lt, lid) r = true := by
      intro t ht r' hr' hid'
      obtain ⟨r, hr, h1, _, _⟩ := pooledTakes_mem q rows hrowspos t ht
      have : r' = r :=
        List.inj_on_of_nodup_map hwf.ids_nodup hr' (hmemrows r hr).1 (by rw [hid', h1])
      exact this ▸ hrowsloc r hr
    have hsum : ((pooledTakes q rows).map (·.2)).sum = q :=
      pooledTakes_sum q rows hrowspos hq (le_of_not_lt hins)
    have hfold := foldl_applyTake_listLocTotal db.now (lt, lid) (pooledTakes q rows)
      db.stock hwf.ids_nodup htids hex hloc
    have hdel : ∀ r ∈ (pooledTakes q rows).foldl (applyTake db.now) db.stock,
        (r.part_id == pid && r.location_type == lt && r.location_id == lid &&
          r.qty == 0) = true → r.qty = 0 := by
      intro r _ hp
      simp only [Bool.and_eq_true, beq_iff_eq] at hp
      exact hp.2
    constructor
    · intro L
      rw [hdb₂]
      show listLocTotal (deleteZeroRows _ pid lt lid) L = _
      unfold deleteZeroRows
      rw [listLocTotal_filter_zero _ _ hdel L, hfold L, hsum]
      rfl
    · have hids₂ : (db₂.stock.map (·.id)).Nodup := by
        rw [hdb₂]
        exact List.Nodup.sublist
          (List.Sublist.map (·.id) (deleteZeroRows_sublist _ pid lt lid))
          ((foldl_applyTake_ids db.now _ db.stock).symm ▸ hwf.ids_nodup)
      have hkeys₂ : (db₂.stock.map keyOf).Nodup := by
        rw [hdb₂]
        exact List.Nodup.sublist
          (List.Sublist.map keyOf (deleteZeroRows_sublist _ pid lt lid))
          ((foldl_applyTake_keys db.now _ db.stock).symm ▸ hwf.keys_nodup)
      refine ⟨hids₂, ?_, hkeys₂⟩
      rw [hdb₂]
      intro r hr
      have hr' := (deleteZeroRows_sublist _ pid lt lid).mem hr
      exact ids_bound_of_map_eq (foldl_applyTake_ids db.now _ db.stock) hwf.ids_lt r hr'

theorem WF_condMap_delete (db : DB) (p : StockRow → Bool) (f : StockRow → StockRow)
    (hid : ∀ r, (f r).id = r.id) (hkey : ∀ r, keyOf (f r) = keyOf r) (hwf : WF db)
    (pid : Nat) (lt : String) (lid : Nat) :
    WF { db with
      stock := deleteZeroRows (db.stock.map fun r => if p r then f r else r) pid lt lid } := by
  have hid' : ∀ r : StockRow, ((fun r => if p r then f r else r) r).id = r.id := by
    intro r; by_cases h : p r <;> simp [h, hid r]
  have hkey' : ∀ r : StockRow, keyOf ((fun r => if p r then f r else r) r) = keyOf r := by
    intro r; by_cases h : p r <;> simp [h, hkey r]
  have hmapids := map_map_eq_of_pointwise db.stock _ (·.id) hid'
  have hmapkeys := map_map_eq_of_pointwise db.stock _ keyOf hkey'
  refine ⟨?_, ?_, ?_⟩
  · exact List.Nodup.sublist
      (List.Sublist.map (·.id) (deleteZeroRows_sublist _ pid lt lid))
      (hmapids.symm ▸ hwf.ids_nodup)
  · intro r hr
    have hr' := (deleteZeroRows_sublist _ pid lt lid).mem hr
    exact ids_bound_of_map_eq hmapids hwf.ids_lt r hr'
  · exact List.Nodup.sublist
      (List.Sublist.map keyOf (deleteZeroRows_sublist _ pid lt lid))
      (hmapkeys.symm ▸ hwf.keys_nodup)

theorem WF_condMap (db : DB) (p : StockRow → Bool) (f : StockRow → StockRow)
    (hid : ∀ r, (f r).id = r.id) (hkey : ∀ r, keyOf (f r) = keyOf r) (hwf : WF db) :
    WF { db with stock := db.stock.map fun r => if p r then f r else r } := by
  have hid' : ∀ r : StockRow, ((fun r => if p r then f r else r) r).id = r.id := by
    intro r; by_cases h : p r <;> simp [h, hid r]
  have hkey' : ∀ r : StockRow, keyOf ((fun r => if p r then f r else r) r) = keyOf r := by
    intro r; by_cases h : p r <;> simp [h, hkey r]
  have hmapids := map_map_eq_of_pointwise db.stock _ (·.id) hid'
  have hmapkeys := map_map_eq_of_pointwise db.stock _ keyOf hkey'
  exact ⟨hmapids.symm ▸ hwf.ids_nodup,
    ids_bound_of_map_eq hmapids hwf.ids_lt,
    hmapkeys.symm ▸ hwf.keys_nodup⟩

theorem countP_pred_le_one (stock : List StockRow) (p : StockRow → Bool)
    (K : Nat × String × Nat × Option Nat) (hkeys : (stock.map keyOf).Nodup)
    (hpk : ∀ r, p r = true → keyOf r = K) : stock.countP p ≤ 1 := by
  calc stock.countP p ≤ stock.countP fun r => keyOf r == K :=
        List.countP_mono_left fun r _ hr => by simp [hpk r hr]
    _ ≤ 1 := countP_le_one_of_nodup_map stock keyOf hkeys K

theorem deductStock_effect (db : DB) (pid : Nat) (lt : String) (lid : Nat) (q : ℤ)
    (sid : Option Nat) (db₂ : DB) (hq : 0 ≤ q) (hwf : WF db)
    (h : deductStock db pid lt lid q sid = (db₂, true)) :
    (∀ L, locTotal db₂ L = locTotal db L - (if L = (lt, lid) then q else 0)) ∧ WF db₂ := by
  unfold deductStock at h
  simp only [updateRows] at h
  set p := fun r : StockRow =>
    r.part_id == pid && r.location_type == lt && r.location_id == lid &&
      r.supplier_id == sid && decide (q ≤ r.qty) with hp_def
  have hpk : ∀ r, p r = true → keyOf r = (pid, lt, lid, sid) ∧ q ≤ r.qty := by
    intro r hr
    rw [hp_def] at hr
    simp only [Bool.and_eq_true, beq_iff_eq, decide_eq_true_eq] at hr
    exact ⟨by simp [keyOf, hr.1.1.1.1, hr.1.1.1.2, hr.1.1.2, hr.1.2], hr.2⟩
  have hploc : ∀ r, p r = true → atLoc (lt, lid) r = true := by
    intro r hr
    have := (hpk r hr).1
    simp only [keyOf, Prod.mk.injEq] at this
    simp [atLoc, this.2.1, this.2.2.1]
  by_cases hcnt : (db.stock.filter p).length > 0
  · rw [if_pos hcnt] at h
    have hdb₂ : db₂ = { db with
        stock := deleteZeroRows
          (db.stock.map fun r =>
            if p r then { r with qty := r.qty - q, updated_at := db.now } else r)
          pid lt lid } := (congrArg Prod.fst h).symm
    have hcount1 : db.stock.countP p = 1 := by
      have hle := countP_pred_le_one db.stock p (pid, lt, lid, sid) hwf.keys_nodup
        fun r hr => (hpk r hr).1
      rw [List.countP_eq_length_filter]
      rw [List.countP_eq_length_filter] at hle
      omega
    constructor
    · intro L
      rw [hdb₂]
      show listLocTotal (deleteZeroRows _ pid lt lid) L = _
      unfold deleteZeroRows
      rw [listLocTotal_filter_zero _ _ (fun r _ hp => by
          simp only [Bool.and_eq_true, beq_iff_eq] at hp
          exact hp.2) L]
      rw [listLocTotal_map_upd L q db.stock p _ (fun r => by simp [atLoc]) (fun r => rfl)]
      by_cases hL : L = (lt, lid)
      · have : (db.stock.countP fun r => atLoc L r && p r) = db.stock.countP p :=
          List.countP_congr fun r _ => by
            by_cases hp : p r
            · simp [hp, hL ▸ hploc r hp]
            · simp [hp]
        rw [this, hcount1, if_pos hL]
        show listLocTotal db.stock L - q * 1 = listLocTotal db.stock L - q
        ring
      · have : (db.stock.countP fun r => atLoc L r && p r) = 0 := by
          rw [List.countP_eq_zero]
          intro r _ hr
          simp only [Bool.and_eq_true] at hr
          exact hL (atLoc_unique hr.1 (hploc r hr.2))
        rw [this, if_neg hL]
        show listLocTotal db.stock L - q * 0 = listLocTotal db.stock L - 0
        ring
    · rw [hdb₂]
      exact WF_condMap_delete db p
        (fun r => { r with qty := r.qty - q, updated_at := db.now })
        (fun r => rfl) (fun r => rfl) hwf pid lt lid
  · rw [if_neg hcnt] at h
    by_cases hs : sid.isSome
    · rw [if_pos hs] at h
      exact deductStockPooled_effect db pid lt lid q db₂ hq hwf h
    · rw [if_neg hs] at h
      exact absurd (congrArg Prod.snd h) (by simp)

theorem addStock_effect (db : DB) (pid : Nat) (lt : String) (lid : Nat) (q : ℤ)
    (sid : Option Nat) (hwf : WF db) :
    (∀ L, locTotal (addStock db pid lt lid q sid).1 L
        = locTotal db L + (if L = (lt, lid) then q else 0)) ∧
    WF (addStock db pid lt lid q sid).1 := by
  unfold addStock
  simp only [updateRows]
  set p := fun r : StockRow =>
    r.part_id == pid && r.location_type == lt && r.location_id == lid &&
      r.supplier_id == sid with hp_def
  have hpk : ∀ r, p r = true ↔ keyOf r = (pid, lt, lid, sid) := by
    intro r
    rw [hp_def]
    simp only [Bool.and_eq_true, beq_iff_eq, keyOf, Prod.mk.injEq]
    tauto
  have hploc : ∀ r, p r = true → atLoc (lt, lid) r = true := by
    intro r hr
    have := (hpk r).mp hr
    simp only [keyOf, Prod.mk.injEq] at this
    simp [atLoc, this.2.1, this.2.2.1]
  by_cases hcnt : (db.stock.filter p).length > 0
  · rw [if_pos hcnt]
    have hcount1 : db.stock.countP p = 1 := by
      have hle := countP_pred_le_one db.stock p (pid, lt, lid, sid) hwf.keys_nodup
        fun r hr => (hpk r).mp hr
      rw [List.countP_eq_length_filter]
      rw [List.countP_eq_length_filter] at hle
      omega
    constructor
    · intro L
      show listLocTotal (db.stock.map fun r =>
          if p r then { r with qty := r.qty + q, updated_at := db.now } else r) L = _
      rw [listLocTotal_map_upd L (-q) db.stock p _ (fun r => by simp [atLoc])
        (fun r => by show r.qty + q = r.qty - (-q); ring)]
      by_cases hL : L = (lt, lid)
      · have : (db.stock.countP fun r => atLoc L r && p r) = db.stock.countP p :=
          List.countP_congr fun r _ => by
            by_cases hp : p r
            · simp [hp, hL ▸ hploc r hp]
            · simp [hp]
        rw [this, hcount1, if_pos hL]
        show listLocTotal db.stock L - (-q) * 1 = listLocTotal db.stock L + q
        ring
      · have : (db.stock.countP fun r => atLoc L r && p r) = 0 := by
          rw [List.countP_eq_zero]
          intro r _ hr
          simp only [Bool.and_eq_true] at hr
          exact hL (atLoc_unique hr.1 (hploc r hr.2))
        rw [this, if_neg hL]
        show listLocTotal db.stock L - (-q) * 0 = listLocTotal db.stock L + 0
        ring
    · exact WF_condMap db p
        (fun r => { r with qty := r.qty + q, updated_at := db.now })
        (fun r => rfl) (fun r => rfl) hwf
  · rw [if_neg hcnt]
    have hnop : ∀ r ∈ db.stock, p r = false := by
      intro r hr
      by_cases hp : p r
      · exfalso
        have : 0 < (db.stock.filter p).length := by
          rw [List.length_pos_iff_exists_mem]
          exact ⟨r, List.mem_filter.mpr ⟨hr, hp⟩⟩
        omega
      · simpa using hp
    set row : StockRow :=
      { id := db.next_stock_id, part_id := pid, location_type := lt,
        location_id := lid, supplier_id := sid, qty := q, updated_at := db.now }
      with hrow_def
    constructor
    · intro L
      show listLocTotal (db.stock ++ [row]) L = _
      rw [listLocTotal_append]
      have hat : atLoc L row = true ↔ L = (lt, lid) := by
        rw [hrow_def]
        constructor
        · intro hh
          simp only [atLoc, Bool.and_eq_true, beq_iff_eq] at hh
          exact Prod.ext hh.1.symm hh.2.symm
        · intro hh
          simp [atLoc, hh]
      by_cases hL : L = (lt, lid)
      · rw [if_pos (hat.mpr hL), if_pos hL]
        rfl
      · rw [if_neg (fun hh => hL (hat.mp hh)), if_neg hL]
        rfl
    · have hrow_id : row.id = db.next_stock_id := rfl
      refine ⟨?_, ?_, ?_⟩
      · show ((db.stock ++ [row]).map (·.id)).Nodup
        rw [List.map_append]
        have hnotin : row.id ∉ db.stock.map (·.id) := by
          intro hcon
          obtain ⟨r, hr, hid⟩ := List.mem_map.mp hcon
          have := hwf.ids_lt r hr
          omega
        simp [List.nodup_append, hwf.ids_nodup, hnotin]
      · intro r hr
        show r.id < db.next_stock_id + 1
        rcases List.mem_append.mp hr with hr | hr
        · have := hwf.ids_lt r hr
          omega
        · rw [List.mem_singleton] at hr
          rw [hr]
          omega
      · show ((db.stock ++ [row]).map keyOf).Nodup
        rw [List.map_append]
        have hnotin : keyOf row ∉ db.stock.map keyOf := by
          intro hcon
          obtain ⟨r, hr, hkey⟩ := List.mem_map.mp hcon
          have : p r = true := (hpk r).mpr (by rw [hkey, hrow_def]; rfl)
          rw [hnop r hr] at this
          exact Bool.noConfusion this
        simp [List.nodup_append, hwf.keys_nodup, hnotin]

/-! ### Operations that never touch the stock table -/

theorem tagStaging_stock (db : DB) (sid : Nat) (dt : String) (did : Nat)
    (dl : Option String) (tb : Nat) :
    (tagStaging db sid dt did dl tb).stock = db.stock ∧
    (tagStaging db sid dt did dl tb).next_stock_id = db.next_stock_id := by
  unfold tagStaging
  split <;> exact ⟨rfl, rfl⟩

theorem clearStagingTagForPart_stock (db : DB) (pid lid : Nat) (sid : Option Nat) :
    (clearStagingTagForPart db pid lid sid).stock = db.stock ∧
    (clearStagingTagForPart db pid lid sid).next_stock_id = db.next_stock_id :=
  ⟨rfl, rfl⟩

theorem logMovement_stock (db : DB) (e : MovementLogEntry) :
    (logMovement db e).1.stock = db.stock ∧
    (logMovement db e).1.next_stock_id = db.next_stock_id :=
  ⟨rfl, rfl⟩

theorem updateForecast_stock (db : DB) (pid : Nat) :
    (updateForecast db pid).stock = db.stock ∧
    (updateForecast db pid).next_stock_id = db.next_stock_id ∧
    (updateForecast db pid).movements = db.movements := by
  unfold updateForecast
  cases getPart db pid <;> exact ⟨rfl, rfl, rfl⟩

theorem checkLowStock_stock (db : DB) (pid : Nat) :
    (checkLowStock db pid).stock = db.stock ∧
    (checkLowStock db pid).next_stock_id = db.next_stock_id ∧
    (checkLowStock db pid).movements = db.movements := by
  unfold checkLowStock
  cases getPart db pid
  · exact ⟨rfl, rfl, rfl⟩
  · dsimp only
    split
    · exact ⟨rfl, rfl, rfl⟩
    · split
      · exact ⟨rfl, rfl, rfl⟩
      · split
        · split
          · exact ⟨rfl, rfl, rfl⟩
          · exact ⟨rfl, rfl, rfl⟩
        · exact ⟨rfl, rfl, rfl⟩

theorem postMovementEffects_stock (db : DB) (pids : List Nat) :
    (postMovementEffects db pids).stock = db.stock ∧
    (postMovementEffects db pids).next_stock_id = db.next_stock_id := by
  unfold postMovementEffects
  induction pids generalizing db with
  | nil => exact ⟨rfl, rfl⟩
  | cons pid rest ih =>
    rw [List.foldl_cons]
    obtain ⟨h1, h2⟩ := ih (checkLowStock (updateForecast db pid) pid)
    rw [h1, h2]
    obtain ⟨hc1, hc2, _⟩ := checkLowStock_stock (updateForecast db pid) pid
    obtain ⟨hf1, hf2, _⟩ := updateForecast_stock db pid
    rw [hc1, hc2, hf1, hf2]
    exact ⟨rfl, rfl⟩

theorem locTotal_congr {db₁ db₂ : DB} (h : db₁.stock = db₂.stock) (L : String × Nat) :
    locTotal db₁ L = locTotal db₂ L := by
  unfold locTotal
  rw [h]

theorem WF_congr {db₁ db₂ : DB} (h : db₁.stock = db₂.stock)
    (h2 : db₁.next_stock_id = db₂.next_stock_id) (hwf : WF db₂) : WF db₁ := by
  refine ⟨?_, ?_, ?_⟩
  · rw [h]; exact hwf.ids_nodup
  · rw [h, h2]; exact hwf.ids_lt
  · rw [h]; exact hwf.keys_nodup

/-! ### Effect of one executed batch line -/

theorem execSingleLine_effect (db : DB) (item : MovementLineItem) (req : MovementRequest)
    (mt : String) (pby : Nat) (db₂ : DB) (res : MovementResult)
    (hwf : WF db) (hq : 1 ≤ item.qty)
    (h : execSingleLine db item req mt pby = .ok (db₂, res)) :
    (∀ L, locTotal db₂ L = locTotal db L
        - (if L = (req.from_location_type, req.from_location_id) then item.qty else 0)
        + (if L = (req.to_location_type, req.to_location_id) then item.qty else 0)) ∧
    WF db₂ := by
  unfold execSingleLine at h
  cases hpart : getPart db item.part_id with
  | none => rw [hpart] at h; exact Except.noConfusion h
  | some part =>
    rw [hpart] at h
    dsimp only at h
    rcases hded : deductStock db item.part_id req.from_location_type req.from_location_id
        item.qty
        (resolveSupplier db item req.from_location_type req.from_location_id).1 with
      ⟨db₁, ok⟩
    rw [hded] at h
    cases ok with
    | false => simp at h
    | true =>
      simp only [Bool.not_true, Bool.false_eq_true, if_false] at h
      obtain ⟨hded₁, hwf₁⟩ := deductStock_effect db item.part_id req.from_location_type
        req.from_location_id item.qty _ db₁ (by omega) hwf hded
      rcases hadd : addStock db₁ item.part_id req.to_location_type req.to_location_id
          item.qty
          (resolveSupplier db item req.from_location_type req.from_location_id).1 with
        ⟨dbA, stockId⟩
      rw [hadd] at h
      obtain ⟨hadd₁, hwfA⟩ := addStock_effect db₁ item.part_id req.to_location_type
        req.to_location_id item.qty _ hwf₁
      rw [hadd] at hadd₁ hwfA
      dsimp only at h hadd₁ hwfA
      set db3 := if req.to_location_type == "pulled" && strTruthy req.destination_type then
          tagStaging dbA stockId (req.destination_type.getD "")
            (req.destination_id.getD 0) req.destination_label pby
        else dbA with hdb3_def
      have hdb3 : db3.stock = dbA.stock ∧ db3.next_stock_id = dbA.next_stock_id := by
        rw [hdb3_def]
        split
        · exact tagStaging_stock dbA stockId _ _ _ pby
        · exact ⟨rfl, rfl⟩
      set db4 := if req.from_location_type == "pulled" then
          clearStagingTagForPart db3 item.part_id req.from_location_id
            (resolveSupplier db item req.from_location_type req.from_location_id).1
        else db3 with hdb4_def
      have hdb4 : db4.stock = db3.stock ∧ db4.next_stock_id = db3.next_stock_id := by
        rw [hdb4_def]
        split
        · exact clearStagingTagForPart_stock db3 item.part_id req.from_location_id _
        · exact ⟨rfl, rfl⟩
      have hdb₂ : db₂.stock = db4.stock ∧ db₂.next_stock_id = db4.next_stock_id := by
        have := congrArg Prod.fst (Except.ok.inj h)
        dsimp at this
        rw [← this]
        exact ⟨rfl, rfl⟩
      have hstock : db₂.stock = dbA.stock := by rw [hdb₂.1, hdb4.1, hdb3.1]
      have hnext : db₂.next_stock_id = dbA.next_stock_id := by
        rw [hdb₂.2, hdb4.2, hdb3.2]
      constructor
      · intro L
        have e1 : locTotal db₂ L = locTotal dbA L := locTotal_congr hstock L
        rw [e1, hadd₁ L, hded₁ L]
      · exact WF_congr hstock hnext hwfA

theorem executeLines_effect (req : MovementRequest) (mt : String) (pby : Nat) :
    ∀ (items : List MovementLineItem) (db db₂ : DB) (ress : List MovementResult),
      WF db → (∀ it ∈ items, 1 ≤ it.qty) →
      executeLines req mt pby db items = .ok (db₂, ress) →
      (∀ L, locTotal db₂ L = locTotal db L
          - (if L = (req.from_location_type, req.from_location_id) then
              (items.map (·.qty)).sum else 0)
          + (if L = (req.to_location_type, req.to_location_id) then
              (items.map (·.qty)).sum else 0)) ∧
      WF db₂ := by
  intro items
  induction items with
  | nil =>
    intro db db₂ ress hwf _ h
    unfold executeLines at h
    obtain ⟨h1, _⟩ := Prod.mk.injEq _ _ _ _ ▸ Except.ok.inj h
    constructor
    · intro L
      rw [← h1]
      simp
    · rw [← h1]; exact hwf
  | cons item rest ih =>
    intro db db₂ ress hwf hq h
    unfold executeLines at h
    rcases hline : execSingleLine db item req mt pby with e | ⟨db₁, res⟩
    · rw [hline] at h; exact Except.noConfusion h
    · rw [hline] at h
      dsimp only at h
      rcases hrest : executeLines req mt pby db₁ rest with e | ⟨db₃, ress'⟩
      · rw [hrest] at h; exact Except.noConfusion h
      · rw [hrest] at h
        dsimp only at h
        obtain ⟨hdb, _⟩ := Prod.mk.injEq _ _ _ _ ▸ Except.ok.inj h
        obtain ⟨h1, hwf₁⟩ := execSingleLine_effect db item req mt pby db₁ res hwf
          (hq item (List.mem_cons_self item rest)) hline
        obtain ⟨h2, hwf₂⟩ := ih db₁ db₃ ress' hwf₁
          (fun it hit => hq it (List.mem_cons_of_mem item hit)) hrest
        constructor
        · intro L
          rw [← hdb, h2 L, h1 L]
          simp only [List.map_cons, List.sum_cons]
          by_cases hF : L = (req.from_location_type, req.from_location_id)
          · by_cases hT : L = (req.to_location_type, req.to_location_id)
            · simp only [if_pos hF, if_pos hT]; ring
            · simp only [if_pos hF, if_neg hT]; ring
          · by_cases hT : L = (req.to_location_type, req.to_location_id)
            · simp only [if_neg hF, if_pos hT]; ring
            · simp only [if_neg hF, if_neg hT]; ring
        · rw [← hdb]; exact hwf₂

/-- No path in `MOVEMENT_RULES` has equal endpoint types — in particular a
transfer never moves a location onto itself. -/
theorem valid_path_ne (ft tt : String) (rule : MovementRule)
    (h : lookupRule (ft, tt) = some rule) : ft ≠ tt := by
  unfold lookupRule at h
  rcases hfind : movementRules.find? fun e => e.1 == (ft, tt) with _ | e
  · rw [hfind] at h; exact Option.noConfusion h
  · have hpred := List.find?_some hfind
    have hpath : e.1 = (ft, tt) := by simpa using hpred
    have hmem := List.mem_of_find?_eq_some hfind
    rw [movementRules] at hmem
    simp only [List.mem_cons] at hmem
    rcases hmem with h1 | h1 | h1 | h1 | h1 | h1 | h1 | h1 <;>
      first
        | exact absurd h1 (List.not_mem_nil e)
        | (rw [h1] at hpath
           injection hpath with hft htt
           intro hcon
           rw [← hft, ← htt] at hcon
           exact absurd hcon (by decide))

/-! ### Claim C1 -/

/-- C1: atomicity — if any line of a movement batch fails validation or
execution, `execute_movement` (and likewise `receive_stock`) leaves the stock
table completely unchanged and appends zero movement-log entries: the
transaction rolls back to the initial state, so no partial application is
observable. -/
theorem c1_batch_atomicity (db : DB) (req : MovementRequest)
    (rreq : ReceiveStockRequest) (pby : Nat) :
    (∀ e, (executeMovement db req pby).2 = Except.error e →
      (executeMovement db req pby).1.stock = db.stock ∧
      (executeMovement db req pby).1.movements = db.movements) ∧
    (∀ e, (receiveStock db rreq pby).2 = Except.error e →
      (receiveStock db rreq pby).1.stock = db.stock ∧
      (receiveStock db rreq pby).1.movements = db.movements) := by
  constructor
  · intro e he
    unfold executeMovement at he ⊢
    by_cases hv : !(validateMovement db req).valid
    · rw [if_pos hv]
      exact ⟨rfl, rfl⟩
    · rw [if_neg hv] at he ⊢
      dsimp only at he ⊢
      rcases hlines : executeLines req
          ((Option.map (fun x => x.type)
            (lookupRule (req.from_location_type, req.to_location_type))).getD "transfer")
          pby db req.items with er | ⟨db₁, ress⟩
      · rw [hlines]
        exact ⟨rfl, rfl⟩
      · rw [hlines] at he
        exact Except.noConfusion he
  · intro e he
    unfold receiveStock at he ⊢
    rcases hlines : receiveLines rreq pby db rreq.items with er | ⟨db₁, mids⟩
    · exact ⟨rfl, rfl⟩
    · rw [hlines] at he
      dsimp only at he
      exact Except.noConfusion he

/-- Witness for C1: a batch that fails validation (50 requested, 10 available)
and a receive whose part does not exist both leave the database untouched. -/
theorem c1_batch_atomicity_witness :
    ((executeMovement wDB wReqBig 3).1.stock = wDB.stock ∧
      (executeMovement wDB wReqBig 3).1.movements = wDB.movements) ∧
    ((receiveStock wDB wRecvBad 3).1.stock = wDB.stock ∧
      (receiveStock wDB wRecvBad 3).1.movements = wDB.movements) :=
  ⟨(c1_batch_atomicity wDB wReqBig wRecvBad 3).1
      "Validation failed: P: requested 50, only 10 available" rfl,
    (c1_batch_atomicity wDB wReqBig wRecvBad 3).2
      "Part ID 99 not found" rfl⟩

/-! ### Claim C3 -/

/-- C3: conservation — for every successfully executed batch whose movement
path has kind "transfer", the total decrease of stock at the source location
equals the total increase at the destination location, summed over the whole
batch, and both equal the sum of the line quantities; the proof covers both the
guarded single-row deduction and the pooled multi-row deduction inside
`_deduct_stock`. -/
theorem c3_transfer_conservation (db : DB) (req : MovementRequest) (pby : Nat)
    (db' : DB) (resp : MovementExecuteResponse) (rule : MovementRule)
    (hwf : WF db) (hreq : ReqOK req)
    (hrule : lookupRule (req.from_location_type, req.to_location_type) = some rule)
    (htype : rule.type = "transfer")
    (hok : executeMovement db req pby = (db', Except.ok resp)) :
    locTotal db (req.from_location_type, req.from_location_id)
      - locTotal db' (req.from_location_type, req.from_location_id) = batchQty req ∧
    locTotal db' (req.to_location_type, req.to_location_id)
      - locTotal db (req.to_location_type, req.to_location_id) = batchQty req := by
  have hne : (req.from_location_type, req.from_location_id)
      ≠ (req.to_location_type, req.to_location_id) := by
    intro hcon
    exact valid_path_ne req.from_location_type req.to_location_type rule hrule
      (congrArg Prod.fst hcon)
  unfold executeMovement at hok
  by_cases hv : !(validateMovement db req).valid
  · rw [if_pos hv] at hok
    exact absurd (congrArg Prod.snd hok) (by simp)
  · rw [if_neg hv] at hok
    dsimp only at hok
    rcases hlines : executeLines req
        ((Option.map (fun x => x.type)
          (lookupRule (req.from_location_type, req.to_location_type))).getD "transfer")
        pby db req.items with er | ⟨db₁, ress⟩
    · rw [hlines] at hok
      exact absurd (congrArg Prod.snd hok) (by simp)
    · rw [hlines] at hok
      have hdb' : db' = postMovementEffects db₁ (req.items.map (·.part_id)).eraseDups :=
        (congrArg Prod.fst hok).symm
      obtain ⟨hL, _⟩ := executeLines_effect req _ pby req.items db db₁ ress hwf hreq hlines
      have hstock : db'.stock = db₁.stock := by
        rw [hdb']
        exact (postMovementEffects_stock db₁ _).1
      have hcong : ∀ L, locTotal db' L = locTotal db₁ L :=
        fun L => locTotal_congr hstock L
      constructor
      · rw [hcong _, hL _, if_pos rfl, if_neg hne]
        show locTotal db _ - (locTotal db _ - batchQty req + 0) = batchQty req
        ring
      · rw [hcong _, hL _, if_neg (fun hcon => hne hcon.symm), if_pos rfl]
        show locTotal db _ - 0 + batchQty req - locTotal db _ = batchQty req
        ring

/-- Witness for C3: the scenario batch (6 of part 1, warehouse → staging)
conserves quantity: warehouse drops from 10 to 4 while staging rises by 6. -/
theorem c3_transfer_conservation_witness :
    locTotal wDB ("warehouse", 1) - locTotal (executeMovement wDB wReq 3).1 ("warehouse", 1)
        = batchQty wReq ∧
    locTotal (executeMovement wDB wReq 3).1 ("pulled", 1) - locTotal wDB ("pulled", 1)
        = batchQty wReq :=
  c3_transfer_conservation wDB wReq 3 (executeMovement wDB wReq 3).1 wResp
    ⟨"transfer", false⟩ ⟨by decide, by decide, by decide⟩
    (by intro it hit; simp only [wReq, List.mem_singleton] at hit; rw [hit]; decide)
    (by decide) (by decide) rfl

/-! ### Non-negativity preservation -/

theorem deductStockPooled_wfids_nonneg (db : DB) (pid : Nat) (lt : String) (lid : Nat)
    (q : ℤ) (h : WFids db) (hnn : NonNeg db) :
    WFids (deductStockPooled db pid lt lid q).1 ∧
    NonNeg (deductStockPooled db pid lt lid q).1 := by
  unfold deductStockPooled
  set rows := positiveRowsByAge db pid lt lid with hrows_def
  by_cases hins : (rows.map (·.qty)).sum < q
  · rw [if_pos hins]
    exact ⟨h, hnn⟩
  · rw [if_neg hins]
    dsimp only
    have hmemrows : ∀ r ∈ rows, r ∈ db.stock ∧ 0 < r.qty := by
      intro r hr
      rw [hrows_def] at hr
      unfold positiveRowsByAge at hr
      rw [(List.perm_insertionSort byUpdatedAt _).mem_iff] at hr
      refine ⟨(List.mem_filter.mp hr).1, ?_⟩
      have := (List.mem_filter.mp hr).2
      simp only [Bool.and_eq_true, decide_eq_true_eq] at this
      exact this.2
    have hrowsids : (rows.map (·.id)).Nodup := by
      have hperm : List.Perm (rows.map (·.id))
          ((db.stock.filter fun r =>
            r.part_id == pid && r.location_type == lt && r.location_id == lid &&
              decide (0 < r.qty)).map (·.id)) :=
        (List.perm_insertionSort byUpdatedAt _).map _
      rw [hperm.nodup_iff]
      exact List.Nodup.sublist (List.Sublist.map (·.id) (List.filter_sublist db.stock))
        h.ids_nodup
    have htids : ((pooledTakes q rows).map (·.1)).Nodup :=
      List.Nodup.sublist (pooledTakes_ids_sublist q rows) hrowsids
    have hbd : ∀ t ∈ pooledTakes q rows, ∀ r ∈ db.stock, r.id = t.1 → t.2 ≤ r.qty := by
      intro t ht r' hr' hid'
      obtain ⟨r, hr, h1, _, h3⟩ :=
        pooledTakes_mem q rows (fun x hx => (hmemrows x hx).2) t ht
      have : r' = r :=
        List.inj_on_of_nodup_map h.ids_nodup hr' (hmemrows r hr).1 (by rw [hid', h1])
      rw [this]
      exact h3
    have hfold := foldl_applyTake_nonneg db.now (pooledTakes q rows) db.stock hnn htids hbd
    constructor
    · refine ⟨?_, ?_⟩
      · exact List.Nodup.sublist
          (List.Sublist.map (·.id) (deleteZeroRows_sublist _ pid lt lid))
          ((foldl_applyTake_ids db.now _ db.stock).symm ▸ h.ids_nodup)
      · intro r hr
        have hr' := (deleteZeroRows_sublist _ pid lt lid).mem hr
        exact ids_bound_of_map_eq (foldl_applyTake_ids db.now _ db.stock) h.ids_lt r hr'
    · intro r hr
      exact hfold r ((deleteZeroRows_sublist _ pid lt lid).mem hr)

theorem deductStock_wfids_nonneg (db : DB) (pid : Nat) (lt : String) (lid : Nat)
    (q : ℤ) (sid : Option Nat) (h : WFids db) (hnn : NonNeg db) :
    WFids (deductStock db pid lt lid q sid).1 ∧
    NonNeg (deductStock db pid lt lid q sid).1 := by
  unfold deductStock
  simp only [updateRows]
  set p := fun r : StockRow =>
    r.part_id == pid && r.location_type == lt && r.location_id == lid &&
      r.supplier_id == sid && decide (q ≤ r.qty) with hp_def
  by_cases hcnt : (db.stock.filter p).length > 0
  · rw [if_pos hcnt]
    dsimp only
    set g := fun r : StockRow =>
      if p r then { r with qty := r.qty - q, updated_at := db.now } else r with hg_def
    have hgid : ∀ r, (g r).id = r.id := by
      intro r
      rw [hg_def]
      by_cases hp : p r <;> simp [hp]
    have hmapids := map_map_eq_of_pointwise db.stock g (·.id) hgid
    constructor
    · refine ⟨?_, ?_⟩
      · exact List.Nodup.sublist
          (List.Sublist.map (·.id) (deleteZeroRows_sublist _ pid lt lid))
          (hmapids.symm ▸ h.ids_nodup)
      · intro r hr
        have hr' := (deleteZeroRows_sublist _ pid lt lid).mem hr
        exact ids_bound_of_map_eq hmapids h.ids_lt r hr'
    · intro r hr
      have hr' := (deleteZeroRows_sublist _ pid lt lid).mem hr
      obtain ⟨r₀, hr₀, hrr⟩ := List.mem_map.mp hr'
      subst hrr
      rw [hg_def]
      dsimp only
      by_cases hp : p r₀
      · have : q ≤ r₀.qty := by
          rw [hp_def] at hp
          simp only [Bool.and_eq_true, decide_eq_true_eq] at hp
          exact hp.2
        rw [if_pos hp]
        show 0 ≤ r₀.qty - q
        omega
      · rw [if_neg hp]
        exact hnn r₀ hr₀
  · rw [if_neg hcnt]
    by_cases hs : sid.isSome
    · rw [if_pos hs]
      exact deductStockPooled_wfids_nonneg db pid lt lid q h hnn
    · rw [if_neg hs]
      exact ⟨h, hnn⟩

theorem addStock_wfids_nonneg (db : DB) (pid : Nat) (lt : String) (lid : Nat)
    (q : ℤ) (sid : Option Nat) (hq : 0 ≤ q) (h : WFids db) (hnn : NonNeg db) :
    WFids (addStock db pid lt lid q sid).1 ∧
    NonNeg (addStock db pid lt lid q sid).1 := by
  unfold addStock
  simp only [updateRows]
  set p := fun r : StockRow =>
    r.part_id == pid && r.location_type == lt && r.location_id == lid &&
      r.supplier_id == sid with hp_def
  by_cases hcnt : (db.stock.filter p).length > 0
  · rw [if_pos hcnt]
    dsimp only
    set g := fun r : StockRow =>
      if p r then { r with qty := r.qty + q, updated_at := db.now } else r with hg_def
    have hgid : ∀ r, (g r).id = r.id := by
      intro r
      rw [hg_def]
      by_cases hp : p r <;> simp [hp]
    have hmapids := map_map_eq_of_pointwise db.stock g (·.id) hgid
    constructor
    · exact ⟨hmapids.symm ▸ h.ids_nodup, ids_bound_of_map_eq hmapids h.ids_lt⟩
    · intro r hr
      obtain ⟨r₀, hr₀, hrr⟩ := List.mem_map.mp hr
      subst hrr
      rw [hg_def]
      dsimp only
      by_cases hp : p r₀
      · rw [if_pos hp]
        have := hnn r₀ hr₀
        show 0 ≤ r₀.qty + q
        omega
      · rw [if_neg hp]
        exact hnn r₀ hr₀
  · rw [if_neg hcnt]
    dsimp only
    constructor
    · refine ⟨?_, ?_⟩
      · rw [List.map_append]
        have hnotin : db.next_stock_id ∉ db.stock.map (·.id) := by
          intro hcon
          obtain ⟨r, hr, hid⟩ := List.mem_map.mp hcon
          have := h.ids_lt r hr
          omega
        simp [List.nodup_append, h.ids_nodup, hnotin]
      · intro r hr
        show r.id < db.next_stock_id + 1
        rcases List.mem_append.mp hr with hr | hr
        · have := h.ids_lt r hr
          omega
        · rw [List.mem_singleton] at hr
          rw [hr]
          show db.next_stock_id < db.next_stock_id + 1
          omega
    · intro r hr
      rcases List.mem_append.mp hr with hr | hr
      · exact hnn r hr
      · rw [List.mem_singleton] at hr
        rw [hr]
        exact hq

theorem auditAdjust_wfids_nonneg (db : DB) (pid : Nat) (lt : String) (lid : Nat)
    (diff : ℤ) (h : WFids db) (hnn : NonNeg db) :
    WFids (if diff > 0 then auditAdjustAdd db pid lt lid diff
      else auditAdjustRemove db pid lt lid diff) ∧
    NonNeg (if diff > 0 then auditAdjustAdd db pid lt lid diff
      else auditAdjustRemove db pid lt lid diff) := by
  by_cases hd : diff > 0
  · rw [if_pos hd]
    unfold auditAdjustAdd
    dsimp only
    constructor
    · refine ⟨?_, ?_⟩
      · rw [List.map_append]
        have hnotin : db.next_stock_id ∉ db.stock.map (·.id) := by
          intro hcon
          obtain ⟨r, hr, hid⟩ := List.mem_map.mp hcon
          have := h.ids_lt r hr
          omega
        simp [List.nodup_append, h.ids_nodup, hnotin]
      · intro r hr
        show r.id < db.next_stock_id + 1
        rcases List.mem_append.mp hr with hr | hr
        · have := h.ids_lt r hr
          omega
        · rw [List.mem_singleton] at hr
          rw [hr]
          show db.next_stock_id < db.next_stock_id + 1
          omega
    · intro r hr
      rcases List.mem_append.mp hr with hr | hr
      · exact hnn r hr
      · rw [List.mem_singleton] at hr
        rw [hr]
        show (0 : ℤ) ≤ diff
        omega
  · rw [if_neg hd]
    unfold auditAdjustRemove
    set g := fun r : StockRow =>
      if r.part_id == pid && r.location_type == lt && r.location_id == lid then
        { r with qty := max 0 (r.qty + diff), updated_at := db.now }
      else r with hg_def
    have hgid : ∀ r, (g r).id = r.id := by
      intro r
      rw [hg_def]
      by_cases hp : r.part_id == pid && r.location_type == lt && r.location_id == lid <;>
        simp [hp]
    have hmapids := map_map_eq_of_pointwise db.stock g (·.id) hgid
    constructor
    · exact ⟨hmapids.symm ▸ h.ids_nodup, ids_bound_of_map_eq hmapids h.ids_lt⟩
    · intro r hr
      obtain ⟨r₀, hr₀, hrr⟩ := List.mem_map.mp hr
      subst hrr
      rw [hg_def]
      dsimp only
      by_cases hp : r₀.part_id == pid && r₀.location_type == lt && r₀.location_id == lid
      · rw [if_pos hp]
        show 0 ≤ max 0 (r₀.qty + diff)
        exact le_max_left 0 _
      · rw [if_neg hp]
        exact hnn r₀ hr₀

theorem applyStockOps_inv (ops : List StockOp) :
    ∀ db : DB, WFids db → NonNeg db → (∀ op ∈ ops, StockOpOK op) →
      WFids (ops.foldl applyStockOp db) ∧ NonNeg (ops.foldl applyStockOp db) := by
  induction ops with
  | nil => intro db h hnn _; exact ⟨h, hnn⟩
  | cons op rest ih =>
    intro db h hnn hops
    rw [List.foldl_cons]
    have hstep : WFids (applyStockOp db op) ∧ NonNeg (applyStockOp db op) := by
      cases op with
      | move_deduct pid lt lid q sid =>
        exact deductStock_wfids_nonneg db pid lt lid q sid h hnn
      | move_add pid lt lid q sid =>
        have hq : (1 : ℤ) ≤ q := hops _ (List.mem_cons_self _ _)
        exact addStock_wfids_nonneg db pid lt lid q sid (by omega) h hnn
      | audit_adjust pid lt lid diff =>
        exact auditAdjust_wfids_nonneg db pid lt lid diff h hnn
    exact ih (applyStockOp db op) hstep.1 hstep.2
      fun o ho => hops o (List.mem_cons_of_mem op ho)

/-! ### Claim C2 -/

/-- C2: no negative stock — starting from any well-formed state with
non-negative quantities, every sequence of engine stock operations (guarded
deduction with its pooled fallback, destination upsert with a Pydantic-checked
quantity, audit adjustment) leaves every stock row's quantity ≥ 0. -/
theorem c2_no_negative_stock (db : DB) (ops : List StockOp)
    (hwf : WFids db) (hnn : NonNeg db) (hops : ∀ op ∈ ops, StockOpOK op) :
    NonNeg (ops.foldl applyStockOp db) :=
  (applyStockOps_inv ops db hwf hnn hops).2

/-- Witness for C2: deduct 6, upsert 6 at staging, then audit-adjust by −7 on
the scenario database — every quantity stays non-negative. -/
theorem c2_no_negative_stock_witness :
    NonNeg ([StockOp.move_deduct 1 "warehouse" 1 6 (some 7),
      StockOp.move_add 1 "pulled" 1 6 (some 7),
      StockOp.audit_adjust 1 "warehouse" 1 (-7)].foldl applyStockOp wDB) :=
  c2_no_negative_stock wDB _ ⟨by decide, by decide⟩
    (show ∀ r ∈ wDB.stock, 0 ≤ r.qty by decide)
    (by
      intro op hop
      simp only [List.mem_cons] at hop
      rcases hop with rfl | rfl | rfl | h0
      · trivial
      · show (1 : ℤ) ≤ 6
        decide
      · trivial
      · exact absurd h0 (List.not_mem_nil op))

/-! ### Claim C5 -/

theorem mem_deleteZeroRows_ne_zero {l : List StockRow} {pid : Nat} {lt : String}
    {lid : Nat} {r : StockRow} (hr : r ∈ deleteZeroRows l pid lt lid)
    (h1 : r.part_id = pid) (h2 : r.location_type = lt) (h3 : r.location_id = lid) :
    r.qty ≠ 0 := by
  unfold deleteZeroRows at hr
  have hp := (List.mem_filter.mp hr).2
  simp only [h1, h2, h3, beq_self_eq_true, Bool.true_and, Bool.not_eq_true'] at hp
  intro hcon
  rw [hcon] at hp
  simp at hp

/-- C5 (amended): the engine's deduction paths prune zero rows — after a
successful `_deduct_stock` (guarded or pooled), no row for the affected
part/location has quantity exactly 0.  The audit-adjustment decrement of
`apply_adjustments`, by contrast, floors rows at zero but deletes nothing, so
it can leave a zero-quantity row behind (see the counterexample). -/
theorem c5_zero_rows_pruned_on_deduction (db : DB) (pid : Nat) (lt : String)
    (lid : Nat) (q : ℤ) (sid : Option Nat) (db₂ : DB)
    (h : deductStock db pid lt lid q sid = (db₂, true)) :
    ∀ r ∈ db₂.stock, r.part_id = pid → r.location_type = lt → r.location_id = lid →
      r.qty ≠ 0 := by
  intro r hr h1 h2 h3
  unfold deductStock at h
  simp only [updateRows] at h
  by_cases hcnt : (db.stock.filter fun r : StockRow =>
      r.part_id == pid && r.location_type == lt && r.location_id == lid &&
        r.supplier_id == sid && decide (q ≤ r.qty)).length > 0
  · rw [if_pos hcnt] at h
    have hdb₂ := (congrArg Prod.fst h).symm
    dsimp only at hdb₂
    rw [hdb₂] at hr
    exact mem_deleteZeroRows_ne_zero hr h1 h2 h3
  · rw [if_neg hcnt] at h
    by_cases hs : sid.isSome
    · rw [if_pos hs] at h
      unfold deductStockPooled at h
      by_cases hins : ((positiveRowsByAge db pid lt lid).map (·.qty)).sum < q
      · rw [if_pos hins] at h
        exact absurd (congrArg Prod.snd h) (by simp)
      · rw [if_neg hins] at h
        have hdb₂ := (congrArg Prod.fst h).symm
        dsimp only at hdb₂
        rw [hdb₂] at hr
        exact mem_deleteZeroRows_ne_zero hr h1 h2 h3
    · rw [if_neg hs] at h
      exact absurd (congrArg Prod.snd h) (by simp)

/-- Witness for C5 (amended): deducting 6 of 10 units leaves the 4-unit row,
whose quantity is not zero. -/
theorem c5_zero_rows_pruned_on_deduction_witness :
    (deductStock wDB 1 "warehouse" 1 6 (some 7)).2 = true ∧ (4 : ℤ) ≠ 0 :=
  ⟨rfl,
    c5_zero_rows_pruned_on_deduction wDB 1 "warehouse" 1 6 (some 7)
      (deductStock wDB 1 "warehouse" 1 6 (some 7)).1 rfl
      { id := 1, part_id := 1, location_type := "warehouse", location_id := 1,
        supplier_id := some 7, qty := 4, updated_at := 100 }
      (by decide) rfl rfl rfl⟩

/-- Counterexample for C5 as stated: an audit write-off (counted 0 against
expected 3) runs the floored decrement of `apply_adjustments` and leaves a
persisting stock row with quantity exactly 0 at the audited part/location. -/
theorem c5_zero_row_counterexample :
    ∃ r ∈ (applyAdjustments zeroDB 1 2).1.stock,
      r.part_id = 1 ∧ r.location_type = "warehouse" ∧ r.location_id = 1 ∧
        r.qty = 0 := by
  decide

/-! ### Claim C10 -/

theorem addStock_rowsAt_other (db : DB) (pid : Nat) (lt : String) (lid : Nat)
    (q : ℤ) (sid : Option Nat) (L : String × Nat) (hL : L ≠ (lt, lid)) :
    (addStock db pid lt lid q sid).1.stock.filter (atLoc L)
      = db.stock.filter (atLoc L) := by
  unfold addStock
  simp only [updateRows]
  set p := fun r : StockRow =>
    r.part_id == pid && r.location_type == lt && r.location_id == lid &&
      r.supplier_id == sid with hp_def
  have hploc : ∀ r, p r = true → atLoc (lt, lid) r = true := by
    intro r hr
    rw [hp_def] at hr
    simp only [Bool.and_eq_true, beq_iff_eq] at hr
    simp [atLoc, hr.1.1.2, hr.1.2]
  by_cases hcnt : (db.stock.filter p).length > 0
  · rw [if_pos hcnt]
    dsimp only
    rw [filter_map_of_pred _ _ _ (fun r => by
      by_cases hp : p r
      · rw [if_pos hp]
        rfl
      · rw [if_neg hp])]
    refine List.map_congr_left ?_ |>.trans (List.map_id _)
    intro r hr
    have hrl := (List.mem_filter.mp hr).2
    by_cases hp : p r
    · exact absurd (atLoc_unique hrl (hploc r hp)) hL
    · rw [if_neg hp]
      rfl
  · rw [if_neg hcnt]
    dsimp only
    rw [List.filter_append]
    set row : StockRow :=
      { id := db.next_stock_id, part_id := pid, location_type := lt,
        location_id := lid, supplier_id := sid, qty := q, updated_at := db.now }
      with hrow_def
    have hrowat : atLoc L row = false := by
      by_cases hat : atLoc L row
      · exfalso
        apply hL
        refine atLoc_unique hat ?_
        rw [hrow_def]
        simp [atLoc]
      · simpa using hat
    simp [List.filter_cons, hrowat]

theorem addStock_movements (db : DB) (pid : Nat) (lt : String) (lid : Nat)
    (q : ℤ) (sid : Option Nat) :
    (addStock db pid lt lid q sid).1.movements = db.movements := by
  unfold addStock
  simp only [updateRows]
  split <;> rfl

theorem foldl_updateForecast_stock (pids : List Nat) :
    ∀ db : DB, (pids.foldl updateForecast db).stock = db.stock ∧
      (pids.foldl updateForecast db).movements = db.movements := by
  induction pids with
  | nil => intro db; exact ⟨rfl, rfl⟩
  | cons pid rest ih =>
    intro db
    rw [List.foldl_cons]
    obtain ⟨ih1, ih2⟩ := ih (updateForecast db pid)
    obtain ⟨hf1, _, hf3⟩ := updateForecast_stock db pid
    exact ⟨ih1.trans hf1, ih2.trans hf3⟩

/-- Every movement-log entry appended by `receive_stock` has destination
(warehouse, 1), kind "receive", and no source. -/
def ReceiveEntryOK (e : MovementLogEntry) : Prop :=
  e.movement_type = "receive" ∧ e.to_location_type = some "warehouse" ∧
    e.to_location_id = some 1 ∧ e.from_location_type = none ∧
    e.from_location_id = none

theorem receiveStep_effect (db : DB) (req : ReceiveStockRequest) (pby : Nat)
    (item : ReceiveStockItem) (part : Part) :
    (∃ e, (receiveStep db req pby item part).1.movements = db.movements ++ [e] ∧
      ReceiveEntryOK e) ∧
    (∀ L, L ≠ ("warehouse", 1) →
      (receiveStep db req pby item part).1.stock.filter (atLoc L)
        = db.stock.filter (atLoc L)) := by
  constructor
  · refine ⟨{ recvEntry req pby item part with
      id := (addStock db item.part_id "warehouse" 1 item.qty
        item.supplier_id).1.next_movement_id,
      created_at := (addStock db item.part_id "warehouse" 1 item.qty
        item.supplier_id).1.now }, ?_, ?_⟩
    · show (addStock db item.part_id "warehouse" 1 item.qty
        item.supplier_id).1.movements ++ [_] = db.movements ++ [_]
      rw [addStock_movements db item.part_id "warehouse" 1 item.qty item.supplier_id]
    · exact ⟨rfl, rfl, rfl, rfl, rfl⟩
  · intro L hL
    show ((addStock db item.part_id "warehouse" 1 item.qty
      item.supplier_id).1.stock).filter (atLoc L) = db.stock.filter (atLoc L)
    exact addStock_rowsAt_other db item.part_id "warehouse" 1 item.qty
      item.supplier_id L hL

theorem receiveLines_effect (req : ReceiveStockRequest) (pby : Nat) :
    ∀ (items : List ReceiveStockItem) (db db₂ : DB) (mids : List Nat),
      receiveLines req pby db items = .ok (db₂, mids) →
      (∃ l, db₂.movements = db.movements ++ l ∧ ∀ e ∈ l, ReceiveEntryOK e) ∧
      (∀ L, L ≠ ("warehouse", 1) →
        db₂.stock.filter (atLoc L) = db.stock.filter (atLoc L)) := by
  intro items
  induction items with
  | nil =>
    intro db db₂ mids h
    unfold receiveLines at h
    obtain ⟨h1, _⟩ := Prod.mk.injEq _ _ _ _ ▸ Except.ok.inj h
    rw [← h1]
    exact ⟨⟨[], by simp, by simp⟩, fun L _ => rfl⟩
  | cons item rest ih =>
    intro db db₂ mids h
    unfold receiveLines at h
    cases hpart : getPart db item.part_id with
    | none => rw [hpart] at h; exact Except.noConfusion h
    | some part =>
      rw [hpart] at h
      dsimp only at h
      rcases hrest : receiveLines req pby (receiveStep db req pby item part).1 rest with
        er | ⟨dbf, mids2⟩
      · rw [hrest] at h
        exact Except.noConfusion h
      · rw [hrest] at h
        dsimp only at h
        obtain ⟨hdb, _⟩ := Prod.mk.injEq _ _ _ _ ▸ Except.ok.inj h
        obtain ⟨⟨l, hl1, hl2⟩, hstocks⟩ := ih (receiveStep db req pby item part).1 dbf
          mids2 hrest
        obtain ⟨⟨e, he1, he2⟩, hstep⟩ := receiveStep_effect db req pby item part
        constructor
        · refine ⟨e :: l, ?_, ?_⟩
          · rw [← hdb, hl1, he1]
            simp
          · intro x hx
            rcases List.mem_cons.mp hx with rfl | hx
            · exact he2
            · exact hl2 x hx
        · intro L hLne
          rw [← hdb, hstocks L hLne, hstep L hLne]

/-- C10: every stock addition performed by `receive_stock` lands at location
(warehouse, 1): all appended movement-log entries are "receive" into
(warehouse, 1) with no source, and the stock rows at every other location are
untouched, whatever the request contains. -/
theorem c10_receive_lands_at_warehouse (db : DB) (req : ReceiveStockRequest)
    (pby : Nat) :
    (∃ l, (receiveStock db req pby).1.movements = db.movements ++ l ∧
      ∀ e ∈ l, ReceiveEntryOK e) ∧
    (∀ L, L ≠ ("warehouse", 1) →
      (receiveStock db req pby).1.stock.filter (atLoc L)
        = db.stock.filter (atLoc L)) := by
  unfold receiveStock
  rcases hlines : receiveLines req pby db req.items with er | ⟨db₁, mids⟩
  · exact ⟨⟨[], by simp, by simp⟩, fun L _ => rfl⟩
  · obtain ⟨hmov, hstocks⟩ := receiveLines_effect req pby req.items db db₁ mids hlines
    dsimp only
    obtain ⟨hf1, hf2⟩ := foldl_updateForecast_stock
      ((req.items.map (·.part_id)).eraseDups) db₁
    constructor
    · obtain ⟨l, hl1, hl2⟩ := hmov
      exact ⟨l, hf2.trans hl1, hl2⟩
    · intro L hLne
      rw [hf1]
      exact hstocks L hLne

/-- Witness for C10: receiving 4 units of part 1 leaves the stock at
(truck, 1) untouched and appends only warehouse-bound receive entries. -/
theorem c10_receive_lands_at_warehouse_witness :
    (∃ l, (receiveStock wDB wRecv 9).1.movements = wDB.movements ++ l ∧
      ∀ e ∈ l, ReceiveEntryOK e) ∧
    (receiveStock wDB wRecv 9).1.stock.filter (atLoc ("truck", 1))
      = wDB.stock.filter (atLoc ("truck", 1)) :=
  ⟨(c10_receive_lands_at_warehouse wDB wRecv 9).1,
    (c10_receive_lands_at_warehouse wDB wRecv 9).2 ("truck", 1) (by decide)⟩

/-! ### Claim C8 -/

/-- C8 (amended): the preview reports only the source-reaches-zero warnings —
one per line whose part exists and whose source total lands on exactly zero —
with the text "…: source will be at 0 units" (no "after move" suffix); the
Validator's destination-exceeds-maximum warning is absent from previews, so
preview and validator warning lists differ in general (see counterexample). -/
theorem c8_preview_warnings_amended (db : DB) (req : MovementRequest) :
    (calculatePreview db req).warnings = req.items.filterMap fun item =>
      (getPart db item.part_id).bind fun part =>
        if availableQty db item.part_id req.from_location_type req.from_location_id
            - item.qty = 0 then
          some (part.name ++ ": source will be at 0 units")
        else none := by
  show (req.items.filterMap (previewEntry db req)).filterMap (·.2) = _
  rw [List.filterMap_filterMap]
  refine List.filterMap_congr ?_
  intro item _
  unfold previewEntry
  cases getPart db item.part_id with
  | none => rfl
  | some part => rfl

/-- Counterexample for C8 as stated: with a destination close to the maximum
stock level, the Validator warns and the preview does not; and when the source
reaches zero, the two warning texts differ ("after move" suffix). -/
theorem c8_preview_warnings_counterexample :
    (calculatePreview warnDB warnReq).warnings
        ≠ (validateMovement warnDB warnReq).warnings ∧
      (calculatePreview wDB wReqAll).warnings
        ≠ (validateMovement wDB wReqAll).warnings := by
  constructor <;> decide

/-! ### Claim C9 -/

theorem countP_result_partition (l : List AuditItem)
    (h : ∀ ai ∈ l, ai.result = "pending" ∨ ai.result = "match" ∨
      ai.result = "discrepancy" ∨ ai.result = "skipped") :
    (l.countP fun ai => ai.result == "match")
      + (l.countP fun ai => ai.result == "discrepancy")
      + (l.countP fun ai => ai.result == "skipped")
      + (l.countP fun ai => ai.result == "pending") = l.length := by
  induction l with
  | nil => simp
  | cons a t ih =>
    have ha := h a (List.mem_cons_self a t)
    have iht := ih fun x hx => h x (List.mem_cons_of_mem a hx)
    rcases ha with ha | ha | ha | ha <;>
      simp only [List.countP_cons, ha, List.length_cons] <;>
      simp <;> omega

/-- C9 (amended): for every completed audit session, the cached summary counts
satisfy matched + discrepancies + skipped + pending = total_items (assuming
every item result is one of the four legal values); the claim's equality
matched + discrepancies + skipped = total_items therefore holds exactly when no
item is still pending — `complete_audit` itself does not force pending items to
a terminal result (see counterexample). -/
theorem c9_audit_summary_amended (db : DB) (aid : Nat)
    (hres : ∀ ai ∈ db.audit_items, ai.audit_id = aid →
      ai.result = "pending" ∨ ai.result = "match" ∨ ai.result = "discrepancy" ∨
        ai.result = "skipped") :
    ∀ a ∈ (completeAudit db aid).1.audits, a.id = aid →
      a.status = "completed" ∧
      a.matched_items.getD 0 + a.discrepancy_count.getD 0 + a.skipped_count.getD 0
          + (db.audit_items.filter fun ai =>
              ai.audit_id == aid && ai.result == "pending").length
        = a.total_items := by
  intro a ha hid
  unfold completeAudit updateSummaryCounts at ha
  dsimp only at ha
  rw [List.map_map] at ha
  obtain ⟨a₀, ha₀, haa⟩ := List.mem_map.mp ha
  set pc := countByResult db aid with hpc_def
  by_cases h0 : a₀.id = aid
  · have h1 : (a₀.id == aid) = true := by simp [h0]
    have hg : a = { a₀ with
        total_items := pc.total_items, matched_items := pc.matched,
        discrepancy_count := pc.discrepancies, skipped_count := pc.skipped,
        status := "completed", completed_at := some db.now } := by
      rw [← haa]
      simp [h0, h1]
    rw [hg]
    refine ⟨rfl, ?_⟩
    show pc.matched.getD 0 + pc.discrepancies.getD 0 + pc.skipped.getD 0 + _
      = pc.total_items
    rw [hpc_def]
    unfold countByResult
    set items := db.audit_items.filter fun ai => ai.audit_id == aid with hitems_def
    have hres' : ∀ ai ∈ items, ai.result = "pending" ∨ ai.result = "match" ∨
        ai.result = "discrepancy" ∨ ai.result = "skipped" := by
      intro ai hai
      rw [hitems_def] at hai
      have hmem := (List.mem_filter.mp hai).1
      have haid := (List.mem_filter.mp hai).2
      exact hres ai hmem (by simpa using haid)
    have hpendlen : (db.audit_items.filter fun ai =>
        ai.audit_id == aid && ai.result == "pending").length
        = items.countP fun ai => ai.result == "pending" := by
      rw [hitems_def, List.countP_filter, ← List.countP_eq_length_filter]
      exact List.countP_congr fun ai _ => by
        by_cases h1 : ai.audit_id = aid <;> by_cases h2 : ai.result = "pending" <;>
          simp [h1, h2]
    by_cases hemp : items.isEmpty
    · rw [if_pos hemp]
      dsimp only
      rw [hpendlen]
      have : items = [] := List.isEmpty_iff.mp hemp
      simp [this]
    · rw [if_neg hemp]
      dsimp only
      rw [hpendlen]
      simp only [Option.getD_some]
      exact countP_result_partition items hres'
  · have h1 : (a₀.id == aid) = false := by simp [h0]
    have haeq : a = a₀ := by
      rw [← haa]
      simp [h0, h1]
    exact absurd (haeq ▸ hid) h0

/-- Witness for C9 (amended): an audit whose two items are both counted
(match + discrepancy) completes with 1 + 1 + 0 + 0 = 2 = total_items. -/
theorem c9_audit_summary_amended_witness :
    doneRow.status = "completed" ∧
    doneRow.matched_items.getD 0 + doneRow.discrepancy_count.getD 0
        + doneRow.skipped_count.getD 0
        + (doneDB.audit_items.filter fun ai =>
            ai.audit_id == 1 && ai.result == "pending").length
      = doneRow.total_items :=
  c9_audit_summary_amended doneDB 1 (by decide) doneRow (by decide) rfl

/-- Counterexample for C9 as stated: completing an audit whose only item is
still pending stores matched = discrepancies = skipped = 0 while
total_items = 1, so matched + discrepancies + skipped ≠ total_items. -/
theorem c9_audit_summary_counterexample :
    ∃ a ∈ (completeAudit pendDB 1).1.audits, a.id = 1 ∧ a.status = "completed" ∧
      a.matched_items.getD 0 + a.discrepancy_count.getD 0 + a.skipped_count.getD 0
        ≠ a.total_items := by
  decide

/-! ### Claim C4 -/

theorem eq_singleton_of_mem_of_length_le_one {α : Type} {x : α} {l : List α}
    (hm : x ∈ l) (hl : l.length ≤ 1) : l = [x] := by
  cases l with
  | nil => exact absurd hm (List.not_mem_nil x)
  | cons a t =>
    cases t with
    | nil =>
      have hxa : x = a := by simpa using hm
      rw [hxa]
    | cons b u =>
      exfalso
      simp only [List.length_cons] at hl
      omega

theorem find?_of_filter_singleton {α : Type} (l : List α) (p q : α → Bool) (x : α)
    (hf : l.filter q = [x]) (himp : ∀ r, p r = true → q r = true)
    (hx : p x = true) : l.find? p = some x := by
  induction l with
  | nil => simp at hf
  | cons a t ih =>
    rw [List.filter_cons] at hf
    by_cases hqa : q a = true
    · rw [if_pos hqa] at hf
      have ha : a = x := by
        have := congrArg List.head? hf
        simpa using this
      cases ha
      exact List.find?_cons_of_pos t hx
    · rw [if_neg hqa] at hf
      have hpa : ¬(p a = true) := fun hpa => hqa (himp a hpa)
      rw [List.find?_cons_of_neg t hpa]
      exact ih hf

theorem head_insertionSort_min (l : List StockRow) (x : StockRow)
    (hx : (List.insertionSort byUpdatedAt l).head? = some x) :
    x ∈ l ∧ ∀ r ∈ l, x.updated_at ≤ r.updated_at := by
  have hperm := List.perm_insertionSort byUpdatedAt l
  have hsort := List.sorted_insertionSort byUpdatedAt l
  cases hs : List.insertionSort byUpdatedAt l with
  | nil =>
    rw [hs] at hx
    exact absurd hx (by simp)
  | cons y ys =>
    rw [hs] at hx hperm hsort
    have hyx : y = x := by simpa using hx
    cases hyx
    constructor
    · exact hperm.mem_iff.mp (List.mem_cons_self x ys)
    · intro r hr
      have hmr := hperm.mem_iff.mpr hr
      rcases List.mem_cons.mp hmr with h | h
      · rw [h]
      · exact (List.sorted_cons.mp hsort).1 r h

theorem fifo_eval (db : DB) (pid : Nat) (ft : String) (fid : Nat)
    (hex : ∃ row ∈ db.stock, row.part_id = pid ∧ row.location_type = ft ∧
      row.location_id = fid ∧ 0 < row.qty) :
    ∃ row ∈ db.stock, row.part_id = pid ∧ row.location_type = ft ∧
      row.location_id = fid ∧ 0 < row.qty ∧
      (∀ r ∈ db.stock, r.part_id = pid → r.location_type = ft →
        r.location_id = fid → 0 < r.qty → row.updated_at ≤ r.updated_at) ∧
      (positiveRowsByAge db pid ft fid).head? = some row := by
  obtain ⟨row, hmem, h1, h2, h3, h4⟩ := hex
  have hrf : row ∈ db.stock.filter (fun r =>
      r.part_id == pid && r.location_type == ft && r.location_id == fid &&
        decide (0 < r.qty)) :=
    List.mem_filter.mpr ⟨hmem, by simp [h1, h2, h3, h4]⟩
  cases hh : (positiveRowsByAge db pid ft fid).head? with
  | none =>
    exfalso
    have hnil := List.head?_eq_none_iff.mp hh
    have hperm : List.Perm (positiveRowsByAge db pid ft fid)
        (db.stock.filter (fun r =>
          r.part_id == pid && r.location_type == ft && r.location_id == fid &&
            decide (0 < r.qty))) := List.perm_insertionSort byUpdatedAt _
    rw [hnil] at hperm
    exact absurd (hperm.symm.mem_iff.mp hrf) (List.not_mem_nil row)
  | some row0 =>
    obtain ⟨hmem0, hmin0⟩ := head_insertionSort_min (db.stock.filter fun r =>
      r.part_id == pid && r.location_type == ft && r.location_id == fid &&
        decide (0 < r.qty)) row0 hh
    have hprops := (List.mem_filter.mp hmem0).2
    simp only [Bool.and_eq_true, beq_iff_eq, decide_eq_true_eq] at hprops
    obtain ⟨⟨⟨k1, k2⟩, k3⟩, k4⟩ := hprops
    refine ⟨row0, (List.mem_filter.mp hmem0).1, k1, k2, k3, k4, ?_, rfl⟩
    intro r hr hr1 hr2 hr3 hr4
    exact hmin0 r (List.mem_filter.mpr ⟨hr, by simp [hr1, hr2, hr3, hr4]⟩)

theorem fifo_empty (db : DB) (pid : Nat) (ft : String) (fid : Nat)
    (hall : ∀ r ∈ db.stock, r.part_id = pid → r.location_type = ft →
      r.location_id = fid → r.qty ≤ 0) :
    (positiveRowsByAge db pid ft fid).head? = none := by
  unfold positiveRowsByAge
  have hf : db.stock.filter (fun r =>
      r.part_id == pid && r.location_type == ft && r.location_id == fid &&
        decide (0 < r.qty)) = [] := by
    rw [List.filter_eq_nil_iff]
    intro r hr hpr
    simp only [Bool.and_eq_true, beq_iff_eq, decide_eq_true_eq] at hpr
    obtain ⟨⟨⟨h1, h2⟩, h3⟩, h4⟩ := hpr
    exact absurd h4 (not_lt.mpr (hall r hr h1 h2 h3))
  rw [hf]
  rfl

theorem preferred_find (db : DB) (item : MovementLineItem) (ft : String)
    (fid : Nat) (pid : Nat)
    (hkeys : (db.stock.map keyOf).Nodup) (hq : 1 ≤ item.qty)
    (hqty : item.qty ≤ supplierQtyAt db item.part_id ft fid pid) :
    ∃ row, db.stock.find? (fun r =>
        r.part_id == item.part_id && r.location_type == ft &&
          r.location_id == fid && r.supplier_id == some pid &&
          decide (0 < r.qty)) = some row ∧ row.qty ≥ item.qty := by
  have hlen : (db.stock.filter fun r =>
      keyOf r == (item.part_id, ft, fid, some pid)).length ≤ 1 := by
    rw [← List.countP_eq_length_filter]
    exact countP_le_one_of_nodup_map db.stock keyOf hkeys _
  have hsum : ((db.stock.filter fun r =>
      keyOf r == (item.part_id, ft, fid, some pid)).map (·.qty)).sum
      = supplierQtyAt db item.part_id ft fid pid := rfl
  cases hfq : db.stock.filter (fun r =>
      keyOf r == (item.part_id, ft, fid, some pid)) with
  | nil =>
    rw [hfq] at hsum
    simp only [List.map_nil, List.sum_nil] at hsum
    omega
  | cons r0 rest =>
    have hr0 : rest = [] := by
      have hl2 := hfq ▸ hlen
      simp only [List.length_cons] at hl2
      exact List.length_eq_zero.mp (by omega)
    subst hr0
    rw [hfq] at hsum
    simp only [List.map_cons, List.map_nil, List.sum_cons, List.sum_nil,
      add_zero] at hsum
    have hmemf : r0 ∈ db.stock.filter (fun r =>
        keyOf r == (item.part_id, ft, fid, some pid)) := by
      rw [hfq]
      exact List.mem_cons_self r0 []
    have hkey := (List.mem_filter.mp hmemf).2
    simp only [keyOf, beq_iff_eq, Prod.mk.injEq] at hkey
    obtain ⟨k1, k2, k3, k4⟩ := hkey
    have hpos : 0 < r0.qty := by omega
    refine ⟨r0, ?_, by omega⟩
    apply find?_of_filter_singleton db.stock _ _ r0 hfq
    · intro r hpr
      simp only [Bool.and_eq_true, beq_iff_eq, decide_eq_true_eq] at hpr
      obtain ⟨⟨⟨⟨h1, h2⟩, h3⟩, h4⟩, _⟩ := hpr
      simp [keyOf, h1, h2, h3, h4]
    · simp only [Bool.and_eq_true, beq_iff_eq, decide_eq_true_eq]
      exact ⟨⟨⟨⟨k1, k2⟩, k3⟩, k4⟩, hpos⟩

theorem preferred_find_lt (db : DB) (item : MovementLineItem) (ft : String)
    (fid : Nat) (pid : Nat) (row : StockRow)
    (hkeys : (db.stock.map keyOf).Nodup)
    (hlt : supplierQtyAt db item.part_id ft fid pid < item.qty)
    (hfind : db.stock.find? (fun r =>
        r.part_id == item.part_id && r.location_type == ft &&
          r.location_id == fid && r.supplier_id == some pid &&
          decide (0 < r.qty)) = some row) :
    ¬(row.qty ≥ item.qty) := by
  have hmem := List.mem_of_find?_eq_some hfind
  have hp := List.find?_some hfind
  simp only [Bool.and_eq_true, beq_iff_eq, decide_eq_true_eq] at hp
  obtain ⟨⟨⟨⟨h1, h2⟩, h3⟩, h4⟩, hpos⟩ := hp
  have hmf : row ∈ db.stock.filter (fun r =>
      keyOf r == (item.part_id, ft, fid, some pid)) :=
    List.mem_filter.mpr ⟨hmem, by simp [keyOf, h1, h2, h3, h4]⟩
  have hlen : (db.stock.filter fun r =>
      keyOf r == (item.part_id, ft, fid, some pid)).length ≤ 1 := by
    rw [← List.countP_eq_length_filter]
    exact countP_le_one_of_nodup_map db.stock keyOf hkeys _
  have hsingle := eq_singleton_of_mem_of_length_le_one hmf hlen
  have hsum : ((db.stock.filter fun r =>
      keyOf r == (item.part_id, ft, fid, some pid)).map (·.qty)).sum
      = supplierQtyAt db item.part_id ft fid pid := rfl
  rw [hsingle] at hsum
  simp only [List.map_cons, List.map_nil, List.sum_cons, List.sum_nil,
    add_zero] at hsum
  omega

/-- C4: `_resolve_supplier` priority.  An explicit (nonzero) supplier on the
line item wins with label 'explicit'.  With no explicit supplier, under the
stock-key uniqueness invariant and a Pydantic-valid quantity, the
cascade-preferred supplier is chosen with label 'preferred' exactly when it
holds at least the requested quantity at the source; otherwise a source row
with positive quantity and minimal `updated_at` supplies the FIFO answer
with label 'fifo'; and with no positive stock at the source the resolution
is (None, None, None). -/
theorem c4_supplier_resolution (db : DB) (item : MovementLineItem)
    (ft : String) (fid : Nat)
    (hkeys : (db.stock.map keyOf).Nodup) (hq : 1 ≤ item.qty) :
    (∀ sid, item.supplier_id = some sid → sid ≠ 0 →
      resolveSupplier db item ft fid
        = (some sid, getSupplierName db sid, some "explicit")) ∧
    (item.supplier_id = none →
      (∀ pid pname, getPreferredSupplier db item.part_id = some (pid, pname) →
        item.qty ≤ supplierQtyAt db item.part_id ft fid pid →
        resolveSupplier db item ft fid
          = (some pid, some pname, some "preferred")) ∧
      ((getPreferredSupplier db item.part_id = none ∨
        ∃ pid pname, getPreferredSupplier db item.part_id = some (pid, pname) ∧
          supplierQtyAt db item.part_id ft fid pid < item.qty) →
        ((∃ row ∈ db.stock, row.part_id = item.part_id ∧
            row.location_type = ft ∧ row.location_id = fid ∧ 0 < row.qty) →
          ∃ row ∈ db.stock, row.part_id = item.part_id ∧
            row.location_type = ft ∧ row.location_id = fid ∧ 0 < row.qty ∧
            (∀ r ∈ db.stock, r.part_id = item.part_id → r.location_type = ft →
              r.location_id = fid → 0 < r.qty →
              row.updated_at ≤ r.updated_at) ∧
            resolveSupplier db item ft fid
              = (row.supplier_id, row.supplier_id.bind (getSupplierName db),
                 some "fifo")) ∧
        ((∀ r ∈ db.stock, r.part_id = item.part_id → r.location_type = ft →
            r.location_id = fid → r.qty ≤ 0) →
          resolveSupplier db item ft fid = (none, none, none)))) := by
  have hres : ∀ (_ : item.supplier_id = none),
      resolveSupplier db item ft fid = resolveSupplierAuto db item ft fid := by
    intro h
    unfold resolveSupplier
    rw [h]
    rfl
  refine ⟨?_, fun hnone => ⟨?_, fun hno => ⟨?_, ?_⟩⟩⟩
  · intro sid hs hs0
    unfold resolveSupplier
    rw [hs]
    rw [if_pos (show natTruthy (some sid) = true by simp [natTruthy, hs0])]
  · intro pid pname hpref hqty
    rw [hres hnone]
    unfold resolveSupplierAuto
    dsimp only
    rw [hpref]
    dsimp only
    obtain ⟨row, hfind, hge⟩ := preferred_find db item ft fid pid hkeys hq hqty
    rw [hfind]
    dsimp only
    rw [if_pos hge]
  · intro hex
    obtain ⟨row0, hmem0, hp1, hp2, hp3, hp4, hmin, hh⟩ :=
      fifo_eval db item.part_id ft fid hex
    refine ⟨row0, hmem0, hp1, hp2, hp3, hp4, hmin, ?_⟩
    rw [hres hnone]
    unfold resolveSupplierAuto
    dsimp only
    rcases hno with hn | ⟨pid, pname, hp, hlt⟩
    · rw [hn]
      dsimp only
      rw [hh]
    · rw [hp]
      dsimp only
      cases hfind : db.stock.find? (fun r =>
          r.part_id == item.part_id && r.location_type == ft &&
            r.location_id == fid && r.supplier_id == some pid &&
            decide (0 < r.qty)) with
      | none =>
        dsimp only
        rw [hh]
      | some row =>
        dsimp only
        rw [if_neg (preferred_find_lt db item ft fid pid row hkeys hlt hfind)]
        rw [hh]
  · intro hall
    have hhn : (positiveRowsByAge db item.part_id ft fid).head? = none :=
      fifo_empty db item.part_id ft fid hall
    rw [hres hnone]
    unfold resolveSupplierAuto
    dsimp only
    rcases hno with hn | ⟨pid, pname, hp, hlt⟩
    · rw [hn]
      dsimp only
      rw [hhn]
    · rw [hp]
      dsimp only
      cases hfind : db.stock.find? (fun r =>
          r.part_id == item.part_id && r.location_type == ft &&
            r.location_id == fid && r.supplier_id == some pid &&
            decide (0 < r.qty)) with
      | none =>
        dsimp only
        rw [hhn]
      | some row =>
        exfalso
        have hmem := List.mem_of_find?_eq_some hfind
        have hp2 := List.find?_some hfind
        simp only [Bool.and_eq_true, beq_iff_eq, decide_eq_true_eq] at hp2
        obtain ⟨⟨⟨⟨g1, g2⟩, g3⟩, _⟩, gpos⟩ := hp2
        exact absurd gpos (not_lt.mpr (hall row hmem g1 g2 g3))

/-- Witness for C4: in `resDB` the category-preferred supplier 9 has no
stock at the source, so resolution for a one-unit line with no explicit
supplier falls through to FIFO and picks the oldest positive row
(supplier 7, updated_at 3). -/
theorem c4_supplier_resolution_witness :
    ∃ row ∈ resDB.stock, row.part_id = 1 ∧ row.location_type = "warehouse" ∧
      row.location_id = 1 ∧ 0 < row.qty ∧
      (∀ r ∈ resDB.stock, r.part_id = 1 → r.location_type = "warehouse" →
        r.location_id = 1 → 0 < r.qty → row.updated_at ≤ r.updated_at) ∧
      resolveSupplier resDB { part_id := 1, qty := 1 } "warehouse" 1
        = (row.supplier_id, row.supplier_id.bind (getSupplierName resDB),
           some "fifo") := by
  obtain ⟨-, hB⟩ := c4_supplier_resolution resDB { part_id := 1, qty := 1 }
    "warehouse" 1 (by decide) (by decide)
  obtain ⟨-, hC⟩ := hB rfl
  obtain ⟨hfifo, -⟩ := hC (Or.inr ⟨9, "S9", by decide, by decide⟩)
  exact hfifo (by decide)

/-! ### Claim C6 -/

theorem partLocTotal_congr (db1 db2 : DB) (h : db1.stock = db2.stock)
    (pid : Nat) (lt : String) (lid : Nat) :
    partLocTotal db1 pid lt lid = partLocTotal db2 pid lt lid := by
  unfold partLocTotal partLocRows
  rw [h]

theorem partLocTotal_map_cond (db : DB) (pid : Nat) (lt : String) (lid : Nat)
    (g : StockRow → StockRow)
    (hg : ∀ r, (g r).part_id = r.part_id ∧ (g r).location_type = r.location_type ∧
      (g r).location_id = r.location_id) :
    (((db.stock.map g).filter fun r =>
        r.part_id == pid && r.location_type == lt && r.location_id == lid).map
      (·.qty)).sum
      = ((partLocRows db pid lt lid).map fun r => (g r).qty).sum := by
  rw [filter_map_of_pred db.stock g
    (fun r => r.part_id == pid && r.location_type == lt && r.location_id == lid)
    (fun r => by
      obtain ⟨h1, h2, h3⟩ := hg r
      dsimp only
      rw [h1, h2, h3])]
  rw [sum_qty_map]
  rfl

theorem partLocTotal_eq_of_stock_map (db1 db2 : DB) (g : StockRow → StockRow)
    (pid : Nat) (lt : String) (lid : Nat)
    (hs : db2.stock = db1.stock.map g)
    (hg : ∀ r, (g r).part_id = r.part_id ∧ (g r).location_type = r.location_type ∧
      (g r).location_id = r.location_id ∧ (g r).qty = r.qty) :
    partLocTotal db2 pid lt lid = partLocTotal db1 pid lt lid := by
  unfold partLocTotal partLocRows
  rw [hs]
  rw [partLocTotal_map_cond db1 pid lt lid g
    (fun r => ⟨(hg r).1, (hg r).2.1, (hg r).2.2.1⟩)]
  unfold partLocRows
  exact congrArg List.sum (List.map_congr_left fun r _ => (hg r).2.2.2)

theorem auditAdjustAdd_effect (db : DB) (pid : Nat) (lt : String) (lid : Nat)
    (d : ℤ) :
    partLocTotal (auditAdjustAdd db pid lt lid d) pid lt lid
      = partLocTotal db pid lt lid + d := by
  unfold partLocTotal partLocRows auditAdjustAdd
  dsimp only
  rw [List.filter_append, List.map_append, List.sum_append]
  simp

theorem auditAdjustRemove_effect (db : DB) (pid : Nat) (lt : String) (lid : Nat)
    (d : ℤ) :
    partLocTotal (auditAdjustRemove db pid lt lid d) pid lt lid
      = ((partLocRows db pid lt lid).map fun r => max 0 (r.qty + d)).sum := by
  have hmc := partLocTotal_map_cond db pid lt lid
    (fun r : StockRow =>
      if r.part_id == pid && r.location_type == lt && r.location_id == lid then
        { r with qty := max 0 (r.qty + d), updated_at := db.now }
      else r)
    (fun r => ⟨by dsimp only; split <;> rfl, by dsimp only; split <;> rfl,
      by dsimp only; split <;> rfl⟩)
  have hL : partLocTotal (auditAdjustRemove db pid lt lid d) pid lt lid
      = (((db.stock.map fun r : StockRow =>
          if r.part_id == pid && r.location_type == lt && r.location_id == lid then
            { r with qty := max 0 (r.qty + d), updated_at := db.now }
          else r).filter fun r =>
            r.part_id == pid && r.location_type == lt && r.location_id == lid).map
        (·.qty)).sum := rfl
  rw [hL, hmc]
  refine congrArg List.sum (List.map_congr_left fun r hr => ?_)
  have hr' : r ∈ db.stock.filter
      (fun r => r.part_id == pid && r.location_type == lt && r.location_id == lid) := hr
  have hp := (List.mem_filter.mp hr').2
  dsimp only
  rw [if_pos hp]

theorem applyOneAdjustment_effect (audit_id : Nat) (a : Audit) (user_id : Nat)
    (db : DB) (item : AuditItem) (actual : ℤ)
    (hact : item.actual_qty = some actual)
    (hdiff : actual - item.expected_qty ≠ 0) :
    (applyOneAdjustment audit_id a user_id db item).2 = 1 ∧
    (applyOneAdjustment audit_id a user_id db item).1.stock
        = (if actual - item.expected_qty > 0
           then auditAdjustAdd db item.part_id a.location_type a.location_id
                  (actual - item.expected_qty)
           else auditAdjustRemove db item.part_id a.location_type a.location_id
                  (actual - item.expected_qty)).stock ∧
    ∃ e, (applyOneAdjustment audit_id a user_id db item).1.movements
          = db.movements ++ [e] ∧
      e.movement_type = "adjust" ∧ e.part_id = item.part_id ∧
      e.qty = |actual - item.expected_qty| ∧
      (actual - item.expected_qty > 0 →
        e.reason = some ("Audit #" ++ toString audit_id ++ ": found "
          ++ toString (actual - item.expected_qty) ++ " extra")) ∧
      (actual - item.expected_qty < 0 →
        e.reason = some ("Audit #" ++ toString audit_id ++ ": missing "
          ++ toString (-(actual - item.expected_qty)))) := by
  unfold applyOneAdjustment
  rw [hact]
  dsimp only
  rw [if_neg hdiff]
  refine ⟨rfl, rfl, ?_⟩
  by_cases hpos : actual - item.expected_qty > 0
  · have hnlt : ¬(actual - item.expected_qty < 0) := by omega
    simp only [if_pos hpos, if_neg hnlt]
    let eP : MovementLogEntry :=
      { part_id := item.part_id, qty := |actual - item.expected_qty|,
        to_location_type := some a.location_type,
        to_location_id := some a.location_id,
        movement_type := "adjust",
        reason := some ("Audit #" ++ toString audit_id ++ ": found "
          ++ toString (actual - item.expected_qty) ++ " extra"),
        notes := item.discrepancy_note, performed_by := user_id,
        id := db.next_movement_id, created_at := db.now }
    exact ⟨eP, rfl, rfl, rfl, rfl, fun _ => rfl, fun h => absurd h hnlt⟩
  · have hlt : actual - item.expected_qty < 0 := by omega
    simp only [if_neg hpos, if_pos hlt]
    let eN : MovementLogEntry :=
      { part_id := item.part_id, qty := |actual - item.expected_qty|,
        from_location_type := some a.location_type,
        from_location_id := some a.location_id,
        movement_type := "adjust",
        reason := some ("Audit #" ++ toString audit_id ++ ": missing "
          ++ toString (-(actual - item.expected_qty))),
        notes := item.discrepancy_note, performed_by := user_id,
        id := db.next_movement_id, created_at := db.now }
    exact ⟨eN, rfl, rfl, rfl, rfl, fun h => absurd h hpos, fun _ => rfl⟩

theorem applyAdjustments_effect (db : DB) (audit_id user_id : Nat)
    (a : Audit) (items : List AuditItem) (Y : DB × Nat)
    (ha : db.audits.find? (fun x => x.id == audit_id) = some a)
    (hitems : discrepancyItems db audit_id = items)
    (hne : items ≠ [])
    (hY : items.foldl (fun (acc : DB × Nat) item =>
        let step := applyOneAdjustment audit_id a user_id acc.1 item
        (step.1, acc.2 + step.2)) (db, 0) = Y) :
    (applyAdjustments db audit_id user_id).1.stock
        = Y.1.stock.map (fun r =>
            if r.location_type == a.location_type &&
                r.location_id == a.location_id &&
                ((Y.1.audit_items.filter fun ai =>
                  ai.audit_id == audit_id).map (·.part_id)).contains r.part_id then
              { r with last_counted := some Y.1.now }
            else r) ∧
    (applyAdjustments db audit_id user_id).1.movements = Y.1.movements ∧
    (applyAdjustments db audit_id user_id).2 = Y.2 := by
  subst hY
  unfold applyAdjustments
  dsimp only
  rw [hitems]
  rw [if_neg (show ¬(items.isEmpty = true) by simp [hne])]
  rw [ha]
  dsimp only
  refine ⟨?_, ?_, ?_⟩
  · exact (foldl_updateForecast_stock _ _).1
  · exact (foldl_updateForecast_stock _ _).2
  · rfl

theorem foldl_adjust_fst (audit_id : Nat) (a : Audit) (user_id : Nat) :
    ∀ (items : List AuditItem) (acc : DB × Nat),
      (items.foldl (fun (acc : DB × Nat) item =>
          let step := applyOneAdjustment audit_id a user_id acc.1 item
          (step.1, acc.2 + step.2)) acc).1
        = items.foldl (fun d it =>
            (applyOneAdjustment audit_id a user_id d it).1) acc.1 := by
  intro items
  induction items with
  | nil => intro acc; rfl
  | cons it t ih =>
    intro acc
    rw [List.foldl_cons, List.foldl_cons]
    exact ih _

theorem applyOneAdjustment_mov_tail (audit_id : Nat) (a : Audit) (user_id : Nat)
    (d : DB) (it : AuditItem) :
    ∃ t, (applyOneAdjustment audit_id a user_id d it).1.movements
      = d.movements ++ t := by
  unfold applyOneAdjustment
  cases hact2 : it.actual_qty with
  | none => exact ⟨[], by simp⟩
  | some actual =>
    dsimp only
    by_cases hd0 : actual - it.expected_qty = 0
    · rw [if_pos hd0]
      exact ⟨[], by simp⟩
    · rw [if_neg hd0]
      dsimp only
      by_cases hpos : actual - it.expected_qty > 0
      · rw [if_pos hpos]
        exact ⟨_, rfl⟩
      · rw [if_neg hpos]
        exact ⟨_, rfl⟩

theorem foldl_adjust_mov_tail (audit_id : Nat) (a : Audit) (user_id : Nat) :
    ∀ (l : List AuditItem) (d : DB),
      ∃ t, (l.foldl (fun d it =>
          (applyOneAdjustment audit_id a user_id d it).1) d).movements
        = d.movements ++ t := by
  intro l
  induction l with
  | nil => intro d; exact ⟨[], by simp⟩
  | cons it t ih =>
    intro d
    obtain ⟨t0, h0⟩ := applyOneAdjustment_mov_tail audit_id a user_id d it
    obtain ⟨t1, h1⟩ := ih ((applyOneAdjustment audit_id a user_id d it).1)
    refine ⟨t0 ++ t1, ?_⟩
    rw [List.foldl_cons]
    rw [h1, h0, List.append_assoc]

theorem partLocRows_map_id_of_pred (d : DB) (g : StockRow → StockRow)
    (pid : Nat) (lt : String) (lid : Nat)
    (hg : ∀ r, (g r).part_id = r.part_id ∧ (g r).location_type = r.location_type ∧
      (g r).location_id = r.location_id)
    (hid : ∀ r ∈ d.stock, r.part_id = pid → g r = r) :
    (d.stock.map g).filter (fun r =>
      r.part_id == pid && r.location_type == lt && r.location_id == lid)
      = partLocRows d pid lt lid := by
  rw [filter_map_of_pred d.stock g
    (fun r => r.part_id == pid && r.location_type == lt && r.location_id == lid)
    (fun r => by
      obtain ⟨h1, h2, h3⟩ := hg r
      dsimp only
      rw [h1, h2, h3])]
  unfold partLocRows
  have hcg : ∀ r ∈ d.stock.filter (fun r =>
      r.part_id == pid && r.location_type == lt && r.location_id == lid),
      g r = r := by
    intro r hr
    have hm := List.mem_filter.mp hr
    have hp2 := hm.2
    simp only [Bool.and_eq_true, beq_iff_eq] at hp2
    exact hid r hm.1 hp2.1.1
  rw [List.map_congr_left fun r hr => (hcg r hr : g r = (fun x => x) r)]
  exact List.map_id' _

theorem auditAdjustAdd_partLocRows_other (d : DB) (p0 : Nat) (lt0 : String)
    (lid0 : Nat) (q : ℤ) (pid : Nat) (lt : String) (lid : Nat)
    (hne : p0 ≠ pid) :
    partLocRows (auditAdjustAdd d p0 lt0 lid0 q) pid lt lid
      = partLocRows d pid lt lid := by
  unfold partLocRows auditAdjustAdd
  dsimp only
  rw [List.filter_append]
  have hnil : ∀ (row : StockRow), row.part_id = p0 →
      List.filter (fun r : StockRow =>
        r.part_id == pid && r.location_type == lt && r.location_id == lid)
        [row] = [] := by
    intro row hrow
    apply List.filter_eq_nil_iff.mpr
    intro x hx
    rw [List.mem_singleton] at hx
    subst hx
    simp [hrow, hne]
  rw [hnil _ rfl, List.append_nil]

theorem auditAdjustRemove_partLocRows_other (d : DB) (p0 : Nat) (lt0 : String)
    (lid0 : Nat) (q : ℤ) (pid : Nat) (lt : String) (lid : Nat)
    (hne : p0 ≠ pid) :
    partLocRows (auditAdjustRemove d p0 lt0 lid0 q) pid lt lid
      = partLocRows d pid lt lid :=
  partLocRows_map_id_of_pred d (fun r : StockRow =>
      if r.part_id == p0 && r.location_type == lt0 && r.location_id == lid0 then
        { r with qty := max 0 (r.qty + q), updated_at := d.now }
      else r) pid lt lid
    (fun r => ⟨by dsimp only; split <;> rfl, by dsimp only; split <;> rfl,
      by dsimp only; split <;> rfl⟩)
    (fun r _ hrp => by
      dsimp only
      rw [if_neg (show ¬((r.part_id == p0 && r.location_type == lt0 &&
          r.location_id == lid0) = true) by simp [hrp, Ne.symm hne])])

theorem applyOneAdjustment_partLocRows_other (audit_id : Nat) (a : Audit)
    (user_id : Nat) (d : DB) (it : AuditItem) (pid : Nat) (lt : String)
    (lid : Nat) (hne : it.part_id ≠ pid) :
    partLocRows (applyOneAdjustment audit_id a user_id d it).1 pid lt lid
      = partLocRows d pid lt lid := by
  unfold applyOneAdjustment
  cases hact2 : it.actual_qty with
  | none => rfl
  | some actual =>
    dsimp only
    by_cases hd0 : actual - it.expected_qty = 0
    · rw [if_pos hd0]
    · rw [if_neg hd0]
      dsimp only
      by_cases hpos : actual - it.expected_qty > 0
      · rw [if_pos hpos]
        exact auditAdjustAdd_partLocRows_other d it.part_id a.location_type
          a.location_id _ pid lt lid hne
      · rw [if_neg hpos]
        exact auditAdjustRemove_partLocRows_other d it.part_id a.location_type
          a.location_id _ pid lt lid hne

theorem foldl_adjust_partLocRows_other (audit_id : Nat) (a : Audit)
    (user_id : Nat) (pid : Nat) (lt : String) (lid : Nat) :
    ∀ (l : List AuditItem) (d : DB), (∀ it ∈ l, it.part_id ≠ pid) →
      partLocRows (l.foldl (fun d it =>
          (applyOneAdjustment audit_id a user_id d it).1) d) pid lt lid
        = partLocRows d pid lt lid := by
  intro l
  induction l with
  | nil => intro d _; rfl
  | cons it t ih =>
    intro d hl
    rw [List.foldl_cons]
    rw [ih _ (fun x hx => hl x (List.mem_cons_of_mem it hx))]
    exact applyOneAdjustment_partLocRows_other audit_id a user_id d it pid lt lid
      (hl it (List.mem_cons_self it t))

/-- C6 (amended): for EVERY discrepancy item (recorded count, nonzero diff)
of an arbitrary audit session — the item sits at an arbitrary position
`l1 ++ item :: l2` of the session's discrepancy list, and `dPre` is the loop
state when its turn comes — `apply_adjustments` appends for it exactly one
'adjust' movement-log entry whose reason cites the audit id (the entry
persists to the final state), and changes the audited location's stock of the
item's part as the code does: a surplus (diff > 0) adds exactly diff via a
fresh NULL-supplier row, while a shortfall (diff < 0) runs
`UPDATE stock SET qty = MAX(0, qty + diff)` over EVERY supplier row of the
part at that location, making the new total the sum of the per-row floors —
not total + diff as the claim says when several supplier rows exist.  When no
other discrepancy item of the session concerns the same part, the same two
formulas describe the end-to-end change from the initial state. -/
theorem c6_audit_adjustment_amended (db : DB) (audit_id user_id : Nat)
    (a : Audit) (l1 l2 : List AuditItem) (item : AuditItem)
    (actual diff : ℤ) (dPre : DB)
    (ha : db.audits.find? (fun x => x.id == audit_id) = some a)
    (hitems : discrepancyItems db audit_id = l1 ++ item :: l2)
    (hact : item.actual_qty = some actual)
    (hd : diff = actual - item.expected_qty)
    (hdiff : diff ≠ 0)
    (hdPre : dPre = l1.foldl (fun d it =>
      (applyOneAdjustment audit_id a user_id d it).1) db) :
    (∃ e, (applyOneAdjustment audit_id a user_id dPre item).1.movements
          = dPre.movements ++ [e] ∧
      e ∈ (applyAdjustments db audit_id user_id).1.movements ∧
      e.movement_type = "adjust" ∧ e.part_id = item.part_id ∧ e.qty = |diff| ∧
      (0 < diff → e.reason = some ("Audit #" ++ toString audit_id ++ ": found "
          ++ toString diff ++ " extra")) ∧
      (diff < 0 → e.reason = some ("Audit #" ++ toString audit_id ++ ": missing "
          ++ toString (-diff)))) ∧
    (0 < diff →
      partLocTotal (applyOneAdjustment audit_id a user_id dPre item).1
          item.part_id a.location_type a.location_id
        = partLocTotal dPre item.part_id a.location_type a.location_id + diff) ∧
    (diff < 0 →
      partLocTotal (applyOneAdjustment audit_id a user_id dPre item).1
          item.part_id a.location_type a.location_id
        = ((partLocRows dPre item.part_id a.location_type a.location_id).map
            fun r => max 0 (r.qty + diff)).sum) ∧
    (item.part_id ∉ (l1 ++ l2).map (·.part_id) →
      (0 < diff →
        partLocTotal (applyAdjustments db audit_id user_id).1 item.part_id
            a.location_type a.location_id
          = partLocTotal db item.part_id a.location_type a.location_id + diff) ∧
      (diff < 0 →
        partLocTotal (applyAdjustments db audit_id user_id).1 item.part_id
            a.location_type a.location_id
          = ((partLocRows db item.part_id a.location_type a.location_id).map
              fun r => max 0 (r.qty + diff)).sum)) := by
  subst hd
  obtain ⟨hcnt1, hstockX, e, hmov, he1, he2, he3, he4, he5⟩ :=
    applyOneAdjustment_effect audit_id a user_id dPre item actual hact hdiff
  obtain ⟨hsAA, hmAA, hcAA⟩ :=
    applyAdjustments_effect db audit_id user_id a (l1 ++ item :: l2)
      ((l1 ++ item :: l2).foldl (fun (acc : DB × Nat) it =>
        let step := applyOneAdjustment audit_id a user_id acc.1 it
        (step.1, acc.2 + step.2)) (db, 0)) ha hitems (by simp) rfl
  have hfold1 : ((l1 ++ item :: l2).foldl (fun (acc : DB × Nat) it =>
      let step := applyOneAdjustment audit_id a user_id acc.1 it
      (step.1, acc.2 + step.2)) (db, 0)).1
      = l2.foldl (fun d it => (applyOneAdjustment audit_id a user_id d it).1)
          ((applyOneAdjustment audit_id a user_id dPre item).1) := by
    rw [foldl_adjust_fst audit_id a user_id (l1 ++ item :: l2) (db, 0)]
    dsimp only
    rw [List.foldl_append, List.foldl_cons]
    rw [← hdPre]
  have hTfin : ∀ pid lt lid,
      partLocTotal (applyAdjustments db audit_id user_id).1 pid lt lid
        = partLocTotal (l2.foldl (fun d it =>
            (applyOneAdjustment audit_id a user_id d it).1)
            ((applyOneAdjustment audit_id a user_id dPre item).1)) pid lt lid := by
    intro pid lt lid
    rw [partLocTotal_eq_of_stock_map _
      (applyAdjustments db audit_id user_id).1 _ pid lt lid hsAA
      (fun r => ⟨by split <;> rfl, by split <;> rfl,
        by split <;> rfl, by split <;> rfl⟩)]
    rw [hfold1]
  have hmemfin : e ∈ (applyAdjustments db audit_id user_id).1.movements := by
    rw [hmAA, hfold1]
    obtain ⟨t1, ht1⟩ := foldl_adjust_mov_tail audit_id a user_id l2
      ((applyOneAdjustment audit_id a user_id dPre item).1)
    rw [ht1, hmov]
    exact List.mem_append_left _
      (List.mem_append_right _ (List.mem_singleton.mpr rfl))
  have hstep_pos : 0 < actual - item.expected_qty →
      partLocTotal (applyOneAdjustment audit_id a user_id dPre item).1
          item.part_id a.location_type a.location_id
        = partLocTotal dPre item.part_id a.location_type a.location_id
          + (actual - item.expected_qty) := by
    intro hpos
    rw [partLocTotal_congr _ _ hstockX _ _ _,
      if_pos (show actual - item.expected_qty > 0 from hpos)]
    exact auditAdjustAdd_effect dPre item.part_id a.location_type a.location_id _
  have hstep_neg : actual - item.expected_qty < 0 →
      partLocTotal (applyOneAdjustment audit_id a user_id dPre item).1
          item.part_id a.location_type a.location_id
        = ((partLocRows dPre item.part_id a.location_type a.location_id).map
            fun r => max 0 (r.qty + (actual - item.expected_qty))).sum := by
    intro hneg
    rw [partLocTotal_congr _ _ hstockX _ _ _,
      if_neg (show ¬(actual - item.expected_qty > 0) by omega)]
    exact auditAdjustRemove_effect dPre item.part_id a.location_type
      a.location_id _
  refine ⟨⟨e, hmov, hmemfin, he1, he2, he3, he4, he5⟩,
    hstep_pos, hstep_neg, ?_⟩
  intro hnotin
  have hl1 : ∀ it ∈ l1, it.part_id ≠ item.part_id := by
    intro it hit hcon
    exact hnotin (List.mem_map.mpr ⟨it, List.mem_append_left l2 hit, hcon⟩)
  have hl2 : ∀ it ∈ l2, it.part_id ≠ item.part_id := by
    intro it hit hcon
    exact hnotin (List.mem_map.mpr ⟨it, List.mem_append_right l1 hit, hcon⟩)
  have hRowsPre : partLocRows dPre item.part_id a.location_type a.location_id
      = partLocRows db item.part_id a.location_type a.location_id := by
    rw [hdPre]
    exact foldl_adjust_partLocRows_other audit_id a user_id item.part_id
      a.location_type a.location_id l1 db hl1
  have hTotPre : partLocTotal dPre item.part_id a.location_type a.location_id
      = partLocTotal db item.part_id a.location_type a.location_id := by
    unfold partLocTotal
    rw [hRowsPre]
  have hTotFin : partLocTotal (applyAdjustments db audit_id user_id).1
      item.part_id a.location_type a.location_id
      = partLocTotal (applyOneAdjustment audit_id a user_id dPre item).1
          item.part_id a.location_type a.location_id := by
    rw [hTfin item.part_id a.location_type a.location_id]
    unfold partLocTotal
    rw [foldl_adjust_partLocRows_other audit_id a user_id item.part_id
      a.location_type a.location_id l2 _ hl2]
  constructor
  · intro hpos
    rw [hTotFin, hstep_pos hpos, hTotPre]
  · intro hneg
    rw [hTotFin, hstep_neg hneg, hRowsPre]

/-- Counterexample for C6 as stated: in `adjDB` the part sits at the audited
location in two supplier rows (5 and 3 units, total 8); the audit counted 6,
so diff = −2, but the per-row `MAX(0, qty − 2)` update leaves 3 + 1 = 4
units, not the 8 − 2 = 6 the claim's "changes the total by exactly diff"
demands. -/
theorem c6_audit_adjustment_counterexample :
    partLocTotal (applyAdjustments adjDB 1 1).1 1 "warehouse" 1 = 4 ∧
    partLocTotal adjDB 1 "warehouse" 1 + (6 - 8) = 6 ∧
    (4 : ℤ) ≠ 6 := by
  refine ⟨by decide, by decide, by decide⟩

/-- Witness for C6 (amended): on `adjDB` the end-to-end change of the audited
location's total is the sum of the per-row zero-floors, which evaluates to 4. -/
theorem c6_audit_adjustment_amended_witness :
    partLocTotal (applyAdjustments adjDB 1 1).1 1 "warehouse" 1
      = ((partLocRows adjDB 1 "warehouse" 1).map
          fun r => max 0 (r.qty + (6 - 8))).sum ∧
    ((partLocRows adjDB 1 "warehouse" 1).map
        fun r => max 0 (r.qty + (6 - 8))).sum = 4 := by
  obtain ⟨-, -, -, hfin⟩ := c6_audit_adjustment_amended adjDB 1 1
    { id := 1, audit_type := "spot_check", location_type := "warehouse",
      location_id := 1, started_by := 1 }
    [] []
    { id := 1, audit_id := 1, part_id := 1, expected_qty := 8,
      actual_qty := some 6, result := "discrepancy" }
    6 (6 - 8) adjDB (by decide) (by decide) rfl (by decide) (by decide) rfl
  exact ⟨(hfin (by decide)).2 (by decide), by decide⟩


/-! ### Claim C7 -/

theorem ratTrunc_eq_floor_of_nonneg (q : ℚ) (h : 0 ≤ q) : ratTrunc q = ⌊q⌋ := by
  rw [ratTrunc, Rat.floor_def]
  exact Int.tdiv_eq_ediv (Rat.num_nonneg.mpr h) (Int.natCast_nonneg q.den)

theorem ratTrunc_nonpos (q : ℚ) (h : q ≤ 0) : ratTrunc q ≤ 0 := by
  rw [ratTrunc]
  have hnum : q.num ≤ 0 := Rat.num_nonpos.mpr h
  have hne : q.num.tdiv q.den = -((-q.num).tdiv q.den) := by
    rw [Int.neg_tdiv]
    omega
  rw [hne]
  have : (0 : ℤ) ≤ (-q.num).tdiv q.den := by
    rw [Int.tdiv_eq_ediv (by omega) (Int.natCast_nonneg q.den)]
    exact Int.ediv_nonneg (by omega) (Int.natCast_nonneg q.den)
  omega

theorem ratTrunc_eq_ceil_of_nonpos (q : ℚ) (h : q ≤ 0) : ratTrunc q = ⌈q⌉ := by
  have h1 : ratTrunc (-q) = ⌊-q⌋ :=
    ratTrunc_eq_floor_of_nonneg _ (by linarith)
  have h2 : ratTrunc q = -(ratTrunc (-q)) := by
    show q.num.tdiv q.den = -((-q).num.tdiv (-q).den)
    rw [show (-q).num = -q.num from rfl, show (-q).den = q.den from rfl,
      Int.neg_tdiv, neg_neg]
  rw [h2, h1]
  rfl

theorem getPart_map_update (db : DB) (pid : Nat) (part : Part) (g : Part → Part)
    (hgid : ∀ p, (g p).id = p.id) (hp : getPart db pid = some part) :
    ((db.parts.map g).find? fun p => p.id == pid) = some (g part) := by
  rw [List.find?_map]
  have hcomp : ((fun p : Part => p.id == pid) ∘ g) = fun p : Part => p.id == pid := by
    funext p
    simp [Function.comp, hgid p]
  rw [hcomp]
  rw [show db.parts.find? (fun p => p.id == pid) = some part from hp]
  rfl

theorem updateForecast_getPart (db : DB) (pid : Nat) (part : Part)
    (hp : getPart db pid = some part) :
    getPart (updateForecast db pid) pid = some (forecastUpdatedPart db pid part) := by
  show ((updateForecast db pid).parts.find? fun p => p.id == pid) = _
  unfold updateForecast
  rw [hp]
  dsimp only
  have hit : (part.id == pid) = true := by
    have := List.find?_some hp
    simpa using this
  rw [getPart_map_update db pid part _ (fun p => by
    by_cases hc : p.id == pid
    · rw [if_pos hc]
    · rw [if_neg hc]) hp]
  rw [if_pos hit]
  rfl

/-- C7 (amended): when `_update_forecast` recomputes a part's forecast,
`days_until_low` is stored as `max(-1, t)` where `t` truncates
(current − min)/adu_30 *toward zero* (Python `int()`), not its floor.  For
adu_30 > 0 and current ≥ min the two agree, so the claim's floor formula holds
there; the adu_30 = 0 cases are as the claim states; but with adu_30 > 0 and
current < min the stored value is −1 or 0 — 0 exactly when the deficit is
smaller than one day's usage — rather than the −1 the floor formula forces. -/
theorem c7_days_until_low_amended (db : DB) (pid : Nat) (part : Part)
    (hp : getPart db pid = some part) :
    getPart (updateForecast db pid) pid = some (forecastUpdatedPart db pid part) ∧
    (∀ adu30 wh minL, adu30 = (consumedSince db pid 30 : ℚ) / 30 →
      wh = warehouseQty db pid → minL = part.min_stock_level.getD 0 →
      (forecastUpdatedPart db pid part).forecast_days_until_low
          = some (daysUntilLowCalc adu30 wh minL) ∧
      (0 < adu30 → minL ≤ wh →
        daysUntilLowCalc adu30 wh minL = ⌊((wh - minL : ℤ) : ℚ) / adu30⌋) ∧
      (0 < adu30 → wh < minL →
        daysUntilLowCalc adu30 wh minL
            = max (-1) (ratTrunc (((wh - minL : ℤ) : ℚ) / adu30)) ∧
          -1 ≤ daysUntilLowCalc adu30 wh minL ∧
          daysUntilLowCalc adu30 wh minL ≤ 0) ∧
      (adu30 = 0 → wh ≤ minL → daysUntilLowCalc adu30 wh minL = -1) ∧
      (adu30 = 0 → minL < wh → daysUntilLowCalc adu30 wh minL = 999)) := by
  constructor
  · exact updateForecast_getPart db pid part hp
  · intro adu30 wh minL h1 h2 h3
    subst h1 h2 h3
    refine ⟨rfl, ?_, ?_, ?_, ?_⟩
    · intro hadu hwm
      unfold daysUntilLowCalc
      rw [if_pos hadu]
      have hx : (0 : ℚ) ≤ ((warehouseQty db pid - part.min_stock_level.getD 0 : ℤ) : ℚ)
          / ((consumedSince db pid 30 : ℚ) / 30) := by
        apply div_nonneg
        · exact_mod_cast sub_nonneg.mpr hwm
        · exact le_of_lt hadu
      rw [ratTrunc_eq_floor_of_nonneg _ hx]
      have : (0 : ℤ) ≤ ⌊((warehouseQty db pid - part.min_stock_level.getD 0 : ℤ) : ℚ)
          / ((consumedSince db pid 30 : ℚ) / 30)⌋ := Int.floor_nonneg.mpr hx
      omega
    · intro hadu hwm
      unfold daysUntilLowCalc
      rw [if_pos hadu]
      refine ⟨rfl, le_max_left _ _, ?_⟩
      have hx : ((warehouseQty db pid - part.min_stock_level.getD 0 : ℤ) : ℚ)
          / ((consumedSince db pid 30 : ℚ) / 30) ≤ 0 := by
        apply div_nonpos_of_nonpos_of_nonneg
        · exact_mod_cast sub_nonpos.mpr (le_of_lt hwm)
        · exact le_of_lt hadu
      have := ratTrunc_nonpos _ hx
      omega
    · intro hadu hwm
      unfold daysUntilLowCalc
      rw [if_neg (by rw [hadu]; exact lt_irrefl 0), if_pos hwm]
    · intro hadu hwm
      unfold daysUntilLowCalc
      rw [if_neg (by rw [hadu]; exact lt_irrefl 0), if_neg (by omega)]

/-- Counterexample for C7 as stated: in `fcDB` (adu_30 = 2, warehouse 9,
minimum 10) the code stores days_until_low = 0 via `int()` truncation, while
the claim's floor formula gives max(−1, ⌊−1/2⌋) = −1, and a deficit state
yields a pre-floor value of 0, not ≤ −1. -/
theorem c7_days_until_low_counterexample :
    (forecastUpdatedPart fcDB 1 wPart).forecast_days_until_low = some 0 ∧
    getPart (updateForecast fcDB 1) 1 = some (forecastUpdatedPart fcDB 1 wPart) ∧
    max (-1 : ℤ) ⌊((9 - 10 : ℤ) : ℚ) / ((consumedSince fcDB 1 30 : ℚ) / 30)⌋ = -1 := by
  have h30 : consumedSince fcDB 1 30 = 60 := by decide
  refine ⟨?_, updateForecast_getPart fcDB 1 wPart rfl, ?_⟩
  · show some (daysUntilLowCalc ((consumedSince fcDB 1 30 : ℚ) / 30)
        (warehouseQty fcDB 1) (wPart.min_stock_level.getD 0)) = some 0
    have hw : warehouseQty fcDB 1 = 9 := by decide
    have hm : wPart.min_stock_level.getD 0 = 10 := by decide
    rw [h30, hw, hm]
    unfold daysUntilLowCalc
    rw [if_pos (by norm_num : (0:ℚ) < ((60:ℤ):ℚ)/30)]
    have hq : ((((9:ℤ) - 10 : ℤ) : ℚ) / (((60:ℤ):ℚ)/30)) = -1/2 := by norm_num
    rw [hq, ratTrunc_eq_ceil_of_nonpos _ (by norm_num)]
    have hc : (⌈(-1:ℚ)/2⌉ : ℤ) = 0 := by norm_num
    rw [hc]
    decide
  · rw [h30]
    norm_num

/-- Witness for C7 (amended): applied to `wDB` (no consumption, warehouse 10,
minimum 10, so adu_30 = 0 and current ≤ min gives −1). -/
theorem c7_days_until_low_amended_witness :
    getPart (updateForecast wDB 1) 1 = some (forecastUpdatedPart wDB 1 wPart) ∧
    daysUntilLowCalc ((consumedSince wDB 1 30 : ℚ) / 30) (warehouseQty wDB 1)
      (wPart.min_stock_level.getD 0) = -1 := by
  obtain ⟨hfind, hall⟩ := c7_days_until_low_amended wDB 1 wPart rfl
  obtain ⟨_, _, _, hzero, _⟩ := hall ((consumedSince wDB 1 30 : ℚ) / 30)
    (warehouseQty wDB 1) (wPart.min_stock_level.getD 0) rfl rfl rfl
  refine ⟨hfind, hzero ?_ ?_⟩
  · have h30 : consumedSince wDB 1 30 = 0 := by decide
    rw [h30]
    norm_num
  · decide

end StockEngine
